import Mathlib

set_option maxHeartbeats 1000000

/-!
Shallow embedding of the `koishi-plugin-monetary-bank` ledger core
(`src/index.ts`): deposit records, the external cash-ledger adapter,
the `deposit` / `withdraw` API operations, the `bank.fixed` fixed-term
opening, the interest-settlement engine (`settleInterest`) and the
demand-record compactor (`mergeDemandRecords`).

Modelling conventions:
- JS numbers (amounts, rates) are modelled as exact rationals `ℚ`;
  `Math.floor` is `Int.floor`.
- JS `Date` timestamps are modelled as `ℤ` milliseconds on a uniform
  day grid; `setHours(0,0,0,0)` is truncation to the enclosing multiple
  of `dayMs`, and `setDate(getDate() + n)` is `+ n * dayMs`.
- The external `monetary` table (the cash ledger) is an association
  list keyed by `(uid, currency)`.  The source's legacy probing of
  alternative primary keys and balance-field names
  (`findMonetaryRecord`) is an external-compatibility shim that the
  spec scopes out (§1, §6); the adapter is modelled by its contract:
  lookup, create-with-zero, and adjust-with-no-negative-balance.
- Database row ids are kept in the record structure but operations are
  modelled as functional list surgery; the auto-increment id of a
  record created by the compactor is abstracted as `0` since no
  observable behaviour depends on it.
- The external cash-adapter write (`changeMonetary`) can fail at
  runtime (caught database errors); `depositAux` / `withdrawAux` take a
  boolean oracle for the outcome of the external call that can fail,
  mirroring the source's error branches.  The normal operations are the
  `true` instantiations.
-/

namespace MonetaryBank

/-- Settlement cycle of a deposit record (source: `cycle: 'day' | 'week' | 'month'`). -/
inductive Cycle
  | day
  | week
  | month
deriving DecidableEq, Repr

/-- Record kind (source: `type: 'demand' | 'fixed'`). -/
inductive RecordKind
  | demand
  | fixed
deriving DecidableEq, Repr

/-- One row of the `monetary_bank_int` table (source interface `MonetaryBankInterest`). -/
structure BankRecord where
  id : Nat := 0
  uid : Nat
  currency : String
  amount : ℚ
  type : RecordKind
  rate : ℚ
  cycle : Cycle
  settlementDate : ℤ
  extendRequested : Bool := false
  nextRate : Option ℚ := none
  nextCycle : Option Cycle := none
deriving DecidableEq, Repr

/-- Demand-interest configuration (source `Config.demandInterest`). -/
structure DemandInterestCfg where
  enabled : Bool
  rate : ℚ
  cycle : Cycle
deriving DecidableEq, Repr

/-- One fixed-term plan (source `Config.fixedInterest[i]`). -/
structure FixedPlan where
  name : String
  rate : ℚ
  cycle : Cycle
deriving DecidableEq, Repr

/-- Plugin configuration (source `Config`), restricted to the fields the
ledger core reads. -/
structure BankConfig where
  defaultCurrency : String := "coin"
  enableInterest : Bool := false
  demandInterest : DemandInterestCfg
  fixedInterest : List FixedPlan
deriving DecidableEq, Repr

/-- Milliseconds in one day. -/
def dayMs : ℤ := 86400000

/-- Model of `d.setHours(0, 0, 0, 0)`: truncate a timestamp to the midnight
that starts its day. -/
def midnight (t : ℤ) : ℤ := dayMs * (t / dayMs)

/-- Length of one settlement cycle in days (source `switch (cycle)` in
`calculateNextSettlementDate`: day = +1, week = +7, month = +30). -/
def cycleDays : Cycle → ℤ
  | .day => 1
  | .week => 7
  | .month => 30

/-- Source `calculateNextSettlementDate(cycle, isNew)`: today's midnight,
plus one grace day for new deposits (T+1), plus one cycle length. -/
def calculateNextSettlementDate (cycle : Cycle) (isNew : Bool) (now : ℤ) : ℤ :=
  let s := midnight now
  let s := if isNew then s + dayMs else s
  s + cycleDays cycle * dayMs

/-- Key of the external cash ledger: `(uid, currency)`. -/
abbrev CashKey := Nat × String

/-- Lookup in the cash association list. -/
def lookupCash : List (CashKey × ℚ) → CashKey → Option ℚ
  | [], _ => none
  | e :: es, k => if e.1 = k then some e.2 else lookupCash es k

/-- Overwrite (or append) an entry of the cash association list. -/
def setCash : List (CashKey × ℚ) → CashKey → ℚ → List (CashKey × ℚ)
  | [], k, v => [(k, v)]
  | e :: es, k, v => if e.1 = k then (k, v) :: es else e :: setCash es k v

/-- State of the ledger: the `monetary_bank_int` table plus the external
`monetary` cash table. -/
structure BankState where
  records : List BankRecord
  cash : List (CashKey × ℚ)
deriving DecidableEq, Repr

/-- Source `getMonetaryBalance`: read the user's cash, `none` when the user
has no cash row. -/
def getMonetaryBalance (st : BankState) (uid : Nat) (cur : String) : Option ℚ :=
  lookupCash st.cash (uid, cur)

/-- The user's cash balance, defaulting to `0` (source `... || 0`). -/
def cashOf (st : BankState) (uid : Nat) (cur : String) : ℚ :=
  (lookupCash st.cash (uid, cur)).getD 0

/-- Source `createMonetaryUser`: insert a minimal cash row with value `0`. -/
def createMonetaryUser (st : BankState) (uid : Nat) (cur : String) : BankState :=
  { st with cash := setCash st.cash (uid, cur) 0 }

/-- Source `changeMonetary`: adjust the user's cash by `delta`, creating the
row when missing, and failing (returning `none`) when the result would be
negative. -/
def changeMonetary (st : BankState) (uid : Nat) (cur : String) (delta : ℚ) :
    Option (ℚ × BankState) :=
  let p : ℚ × BankState :=
    match lookupCash st.cash (uid, cur) with
    | some c => (c, st)
    | none => (0, createMonetaryUser st uid cur)
  let v := p.1 + delta
  if v < 0 then none
  else some (v, { p.2 with cash := setCash p.2.cash (uid, cur) v })

/-- Balance summary returned by `getBankBalance`. -/
structure BankBalance where
  total : ℚ
  demand : ℚ
  fixed : ℚ
deriving DecidableEq, Repr

/-- Sum of the `amount` fields of a list of records. -/
def amountSum (l : List BankRecord) : ℚ := (l.map BankRecord.amount).sum

/-- Source `getBankBalance`: aggregate all of the user's records, demand
amounts into `demand`, everything else into `fixed`, `total` their sum. -/
def getBankBalance (st : BankState) (uid : Nat) (cur : String) : BankBalance :=
  let recs := st.records.filter fun r => decide (r.uid = uid ∧ r.currency = cur)
  let demand := amountSum (recs.filter fun r => decide (r.type = RecordKind.demand))
  let fixed := amountSum (recs.filter fun r => decide (r.type ≠ RecordKind.demand))
  ⟨demand + fixed, demand, fixed⟩

/-- Result record of the `deposit` / `withdraw` API operations. -/
structure OpResult where
  success : Bool
  newCash : Option ℚ := none
  newBalance : Option BankBalance := none
  error : Option String := none
deriving DecidableEq, Repr

/-- Model of the JS `x || default` used on the configured demand rate
(source `rate: demandConfig.rate || 0.25`): `0` is falsy. -/
def jsOr (q d : ℚ) : ℚ := if q = 0 then d else q

/-- The demand record created by `MonetaryBankAPI.deposit`. -/
def depositRecord (cfg : BankConfig) (now : ℤ) (uid : Nat) (cur : String)
    (amount : ℚ) : BankRecord :=
  { uid := uid, currency := cur, amount := amount, type := .demand,
    rate := jsOr cfg.demandInterest.rate (1 / 4),
    cycle := cfg.demandInterest.cycle,
    settlementDate := calculateNextSettlementDate cfg.demandInterest.cycle true now,
    extendRequested := false }

/-- Source `MonetaryBankAPI.deposit`, with `createOk` the outcome of the
record-store `create` call (the source's `try`/`catch`): validate the
amount, read (or create) the cash row, check funds, debit cash, then create
one demand record.  When the create fails the source returns
`{ success: false }` with the cash already debited. -/
def depositAux (createOk : Bool) (cfg : BankConfig) (now : ℤ) (st : BankState)
    (uid : Nat) (cur : String) (amount : ℚ) : OpResult × BankState :=
  if amount ≤ 0 then ({ success := false, error := some "金额必须大于0" }, st)
  else
    let p : ℚ × BankState :=
      match getMonetaryBalance st uid cur with
      | some c => (c, st)
      | none => (0, createMonetaryUser st uid cur)
    if p.1 < amount then
      ({ success := false, error := some "现金不足" }, p.2)
    else
      match changeMonetary p.2 uid cur (-amount) with
      | none => ({ success := false, error := some "扣除现金失败" }, p.2)
      | some (newCash, st2) =>
        if createOk then
          let st3 := { st2 with
            records := st2.records ++ [depositRecord cfg now uid cur amount] }
          ({ success := true, newCash := some newCash,
             newBalance := some (getBankBalance st3 uid cur) }, st3)
        else
          ({ success := false, error := some "存款操作失败" }, st2)

/-- The `deposit` operation on the happy path of the record store. -/
def deposit : BankConfig → ℤ → BankState → Nat → String → ℚ → OpResult × BankState :=
  depositAux true

/-- The user's demand records for one `(uid, currency)` key (the source's
`select ... where { uid, currency, type: 'demand' }`). -/
def demandRecordsOf (st : BankState) (uid : Nat) (cur : String) : List BankRecord :=
  st.records.filter fun r =>
    decide (r.uid = uid ∧ r.currency = cur ∧ r.type = RecordKind.demand)

/-- All records that the demand-consumption loop does not touch. -/
def otherRecordsOf (st : BankState) (uid : Nat) (cur : String) : List BankRecord :=
  st.records.filter fun r =>
    decide (¬(r.uid = uid ∧ r.currency = cur ∧ r.type = RecordKind.demand))

/-- The source's `orderBy('settlementDate', 'asc')`. -/
def sortBySettlement (l : List BankRecord) : List BankRecord :=
  l.insertionSort fun a b => a.settlementDate ≤ b.settlementDate

/-- The demand-consumption loop shared by `withdraw` and the `bank.fixed`
funding step: walk the (sorted) records; delete a record whose amount fits
in the remaining need, otherwise decrement it by the remainder and stop. -/
def consumeDemand : ℚ → List BankRecord → List BankRecord
  | _, [] => []
  | remaining, r :: rs =>
    if remaining ≤ 0 then r :: rs
    else if r.amount ≤ remaining then consumeDemand (remaining - r.amount) rs
    else { r with amount := r.amount - remaining } :: rs

/-- Source `MonetaryBankAPI.withdraw`, with `cashOk` the outcome of the
external cash credit (`changeMonetary` returning `null` on an adapter
failure): validate, check the demand balance, consume demand records
oldest-settling first, then credit cash.  When the cash credit fails the
source returns `{ success: false }` with the record deductions already
persisted. -/
def withdrawAux (cashOk : Bool) (st : BankState) (uid : Nat) (cur : String)
    (amount : ℚ) : OpResult × BankState :=
  if amount ≤ 0 then ({ success := false, error := some "金额必须大于0" }, st)
  else
    let balance := getBankBalance st uid cur
    if balance.demand < amount then
      ({ success := false, error := some "可用余额不足" }, st)
    else
      let st1 : BankState := { st with
        records := (otherRecordsOf st uid cur
          ++ consumeDemand amount (sortBySettlement (demandRecordsOf st uid cur))) }
      if cashOk then
        match changeMonetary st1 uid cur amount with
        | none => ({ success := false, error := some "转账到现金失败" }, st1)
        | some (newCash, st2) =>
          ({ success := true, newCash := some newCash,
             newBalance := some (getBankBalance st2 uid cur) }, st2)
      else
        ({ success := false, error := some "转账到现金失败" }, st1)

/-- The `withdraw` operation on the happy path of the cash adapter. -/
def withdraw : BankState → Nat → String → ℚ → OpResult × BankState :=
  withdrawAux true

/-- Observable outcome of the `bank.fixed` command action. -/
inductive FixedOutcome
  | ok (fromCash fromDemand newCash : ℚ) (newBalance : BankBalance)
  | err (msg : String)
deriving DecidableEq, Repr

/-- The fixed record created by the `bank.fixed` command action. -/
def fixedRecord (plan : FixedPlan) (now : ℤ) (uid : Nat) (cur : String)
    (amount : ℚ) : BankRecord :=
  { uid := uid, currency := cur, amount := amount, type := .fixed,
    rate := plan.rate, cycle := plan.cycle,
    settlementDate := calculateNextSettlementDate plan.cycle true now,
    extendRequested := false }

/-- Core of the `bank.fixed` command action (source lines 1026-1090): fail
with no mutation when cash + demand cannot cover `amount`; otherwise debit
`min(cash, amount)` from cash, take the shortfall from demand records
oldest-settling first, and create one fixed record under the chosen plan. -/
def openFixedTerm (now : ℤ) (st : BankState) (uid : Nat) (cur : String)
    (amount : ℚ) (plan : FixedPlan) : FixedOutcome × BankState :=
  if amount ≤ 0 then (.err "无效的金额", st)
  else
    let cash := cashOf st uid cur
    let balance := getBankBalance st uid cur
    if cash + balance.demand < amount then (.err "资金不足", st)
    else
      let step1 : Option (ℚ × BankState) :=
        if 0 < cash then
          (changeMonetary st uid cur (-(min cash amount))).map
            fun p => (min cash amount, p.2)
        else some (0, st)
      match step1 with
      | none => (.err "扣除现金失败", st)
      | some (fromCash, st1) =>
        let remaining := amount - fromCash
        let fromDemand := if 0 < remaining then remaining else 0
        let st2 : BankState :=
          if 0 < remaining then
            { st1 with records := (otherRecordsOf st1 uid cur
                ++ consumeDemand remaining
                    (sortBySettlement (demandRecordsOf st1 uid cur))) }
          else st1
        let st3 := { st2 with
          records := st2.records ++ [fixedRecord plan now uid cur amount] }
        (.ok fromCash fromDemand (cashOf st3 uid cur)
          (getBankBalance st3 uid cur), st3)

/-- Source `settleInterest` on a single due record, returning the rows that
replace it: a demand record compounds in place; a fixed record with a
requested extension adopts its pending plan; a fixed record without one is
deleted and converts to a demand record only when demand interest is
enabled. -/
def settleInterest (cfg : BankConfig) (now : ℤ) (r : BankRecord) :
    List BankRecord :=
  let interest : ℚ := ((⌊r.amount * r.rate / 100⌋ : ℤ) : ℚ)
  match r.type with
  | .demand =>
    [{ r with
        amount := r.amount + interest,
        settlementDate := calculateNextSettlementDate r.cycle false now }]
  | .fixed =>
    match r.extendRequested, r.nextRate, r.nextCycle with
    | true, some nr, some nc =>
      [{ r with
          amount := r.amount + interest, rate := nr, cycle := nc,
          settlementDate := calculateNextSettlementDate nc false now,
          extendRequested := false, nextRate := none, nextCycle := none }]
    | _, _, _ =>
      if cfg.demandInterest.enabled then
        [{ uid := r.uid, currency := r.currency, amount := r.amount + interest,
           type := .demand, rate := cfg.demandInterest.rate,
           cycle := cfg.demandInterest.cycle,
           settlementDate := calculateNextSettlementDate cfg.demandInterest.cycle false now,
           extendRequested := false }]
      else []

/-- Grouping key of the compactor (source: `uid|currency|midnight(settlementDate)|rate|cycle`). -/
abbrev GroupKey := Nat × String × ℤ × ℚ × Cycle

/-- The compactor's grouping key of a record. -/
def groupKey (r : BankRecord) : GroupKey :=
  (r.uid, r.currency, midnight r.settlementDate, r.rate, r.cycle)

/-- Number of records of a list sharing a grouping key. -/
def keyCount (l : List BankRecord) (k : GroupKey) : Nat :=
  l.countP fun r => decide (groupKey r = k)

/-- Total principal of a grouping key's records. -/
def groupSum (l : List BankRecord) (k : GroupKey) : ℚ :=
  amountSum (l.filter fun r => decide (groupKey r = k))

/-- The replacement record the compactor creates for a merged group. -/
def mergedRecord (k : GroupKey) (total : ℚ) : BankRecord :=
  { uid := k.1, currency := k.2.1, amount := total, type := .demand,
    rate := k.2.2.2.1, cycle := k.2.2.2.2, settlementDate := k.2.2.1,
    extendRequested := false }

/-- Source `mergeDemandRecords` restricted to the demand rows it reads:
keep the rows whose group is a singleton, and replace every larger group by
one record carrying the group's summed principal and shared key. -/
def mergeDemandList (l : List BankRecord) : List BankRecord :=
  let keys := (l.map groupKey).dedup
  (l.filter fun r => decide (keyCount l (groupKey r) = 1))
    ++ (keys.filter fun k => decide (2 ≤ keyCount l k)).map
        fun k => mergedRecord k (groupSum l k)

/-- Source `mergeDemandRecords` on the whole state: non-demand rows are
never selected and stay untouched. -/
def mergeDemandRecords (st : BankState) : BankState :=
  { st with records :=
      ((st.records.filter fun r => decide (r.type ≠ RecordKind.demand))
        ++ mergeDemandList
            (st.records.filter fun r => decide (r.type = RecordKind.demand))) }

/-- The sweep stage of the source `performSettlement`: settle every record
whose settlement date is on or before today's midnight, leaving the other
records (and the cash table) untouched. -/
def settleSweep (cfg : BankConfig) (now : ℤ) (st : BankState) : BankState :=
  { st with
    records := (st.records.flatMap fun r =>
      if midnight r.settlementDate ≤ midnight now then settleInterest cfg now r
      else [r]) }

/-- Source `performSettlement`: settle every record due on or before
today's midnight, then compact the demand records. -/
def performSettlement (cfg : BankConfig) (now : ℤ) (st : BankState) : BankState :=
  mergeDemandRecords (settleSweep cfg now st)

/-- States reachable from an empty record table by the five ledger
operations of the spec (deposit, withdraw, fixed-term opening, settlement,
compaction), over a fixed configuration; the failure oracles of the
external calls are arbitrary. -/
inductive Reach (cfg : BankConfig) : BankState → Prop
  | init (cash : List (CashKey × ℚ)) : Reach cfg ⟨[], cash⟩
  | depositStep (ok : Bool) (now : ℤ) (uid : Nat) (cur : String) (a : ℚ) {st}
      (h : Reach cfg st) : Reach cfg (depositAux ok cfg now st uid cur a).2
  | withdrawStep (ok : Bool) (uid : Nat) (cur : String) (a : ℚ) {st}
      (h : Reach cfg st) : Reach cfg (withdrawAux ok st uid cur a).2
  | openFixedStep (now : ℤ) (uid : Nat) (cur : String) (a : ℚ) {plan : FixedPlan}
      (hp : plan ∈ cfg.fixedInterest) {st}
      (h : Reach cfg st) : Reach cfg (openFixedTerm now st uid cur a plan).2
  | settleStep (now : ℤ) {st}
      (h : Reach cfg st) : Reach cfg (performSettlement cfg now st)
  | mergeStep {st}
      (h : Reach cfg st) : Reach cfg (mergeDemandRecords st)

/-! ### Basic lemmas about sums, filters and the consumption loop -/

@[simp] theorem amountSum_nil : amountSum [] = 0 := rfl

@[simp] theorem amountSum_cons (r : BankRecord) (l : List BankRecord) :
    amountSum (r :: l) = r.amount + amountSum l := by
  simp [amountSum]

theorem amountSum_append (l₁ l₂ : List BankRecord) :
    amountSum (l₁ ++ l₂) = amountSum l₁ + amountSum l₂ := by
  simp [amountSum]

theorem amountSum_perm {l₁ l₂ : List BankRecord} (h : l₁.Perm l₂) :
    amountSum l₁ = amountSum l₂ :=
  (h.map BankRecord.amount).sum_eq

theorem amountSum_nonneg {l : List BankRecord}
    (h : ∀ r ∈ l, 0 ≤ r.amount) : 0 ≤ amountSum l := by
  induction l with
  | nil => simp
  | cons r rs ih =>
    have := h r (by simp)
    have := ih fun x hx => h x (by simp [hx])
    simp only [amountSum_cons]
    linarith

theorem sortBySettlement_perm (l : List BankRecord) :
    (sortBySettlement l).Perm l :=
  List.perm_insertionSort _ l

theorem amountSum_sortBySettlement (l : List BankRecord) :
    amountSum (sortBySettlement l) = amountSum l :=
  amountSum_perm (sortBySettlement_perm l)

theorem mem_sortBySettlement {l : List BankRecord} {x : BankRecord} :
    x ∈ sortBySettlement l ↔ x ∈ l :=
  (sortBySettlement_perm l).mem_iff

/-- The consumption loop removes exactly the requested total from the list
when the request is covered by the list's total. -/
theorem amountSum_consumeDemand {a : ℚ} {l : List BankRecord}
    (h0 : 0 ≤ a) (hle : a ≤ amountSum l) :
    amountSum (consumeDemand a l) = amountSum l - a := by
  induction l generalizing a with
  | nil =>
    simp only [amountSum_nil] at hle
    have : a = 0 := le_antisymm hle h0
    simp [consumeDemand, this]
  | cons r rs ih =>
    by_cases hz : a ≤ 0
    · have ha : a = 0 := le_antisymm hz h0
      simp [consumeDemand, hz, ha]
    · push_neg at hz
      simp only [amountSum_cons] at hle
      simp only [consumeDemand, if_neg (not_le.mpr hz)]
      by_cases hr : r.amount ≤ a
      · rw [if_pos hr, ih (by linarith) (by linarith)]
        simp only [amountSum_cons]
        ring
      · rw [if_neg hr]
        simp only [amountSum_cons]
        ring

/-- Every record surviving the consumption loop is one of the input records
with at most its `amount` changed. -/
theorem consumeDemand_shape {a : ℚ} {l : List BankRecord} :
    ∀ x ∈ consumeDemand a l, ∃ y ∈ l,
      { x with amount := 0 } = { y with amount := 0 } := by
  induction l generalizing a with
  | nil => simp [consumeDemand]
  | cons r rs ih =>
    intro x hx
    simp only [consumeDemand] at hx
    by_cases hz : a ≤ 0
    · rw [if_pos hz] at hx
      exact ⟨x, hx, rfl⟩
    · rw [if_neg hz] at hx
      by_cases hr : r.amount ≤ a
      · rw [if_pos hr] at hx
        obtain ⟨y, hy, hxy⟩ := ih x hx
        exact ⟨y, by simp [hy], hxy⟩
      · rw [if_neg hr] at hx
        rcases List.mem_cons.mp hx with h | h
        · exact ⟨r, by simp, by rw [h]⟩
        · exact ⟨x, by simp [h], rfl⟩

/-- The consumption loop never produces a negative principal. -/
theorem consumeDemand_nonneg {a : ℚ} {l : List BankRecord}
    (h : ∀ r ∈ l, 0 ≤ r.amount) :
    ∀ x ∈ consumeDemand a l, 0 ≤ x.amount := by
  induction l generalizing a with
  | nil => simp [consumeDemand]
  | cons r rs ih =>
    intro x hx
    simp only [consumeDemand] at hx
    by_cases hz : a ≤ 0
    · rw [if_pos hz] at hx
      exact h x hx
    · rw [if_neg hz] at hx
      push_neg at hz
      by_cases hr : r.amount ≤ a
      · rw [if_pos hr] at hx
        exact ih (fun y hy => h y (by simp [hy])) x hx
      · rw [if_neg hr] at hx
        push_neg at hr
        rcases List.mem_cons.mp hx with hh | hh
        · rw [hh]
          simp only
          linarith
        · exact h x (by simp [hh])

/-! ### Cash adapter lemmas -/

theorem lookupCash_setCash_same (l : List (CashKey × ℚ)) (k : CashKey) (v : ℚ) :
    lookupCash (setCash l k v) k = some v := by
  induction l with
  | nil => simp [setCash, lookupCash]
  | cons e es ih =>
    by_cases he : e.1 = k
    · simp [setCash, lookupCash, he]
    · simp [setCash, lookupCash, he, ih]

/-! ### Splitting the balance aggregator -/

/-- The user's records that are not demand records. -/
def fixedRecordsOf (st : BankState) (uid : Nat) (cur : String) : List BankRecord :=
  st.records.filter fun r =>
    decide (r.uid = uid ∧ r.currency = cur ∧ r.type ≠ RecordKind.demand)

theorem getBankBalance_split (st : BankState) (uid : Nat) (cur : String) :
    getBankBalance st uid cur =
      ⟨amountSum (demandRecordsOf st uid cur) + amountSum (fixedRecordsOf st uid cur),
       amountSum (demandRecordsOf st uid cur),
       amountSum (fixedRecordsOf st uid cur)⟩ := by
  unfold getBankBalance demandRecordsOf fixedRecordsOf
  simp only
  rw [List.filter_filter, List.filter_filter]
  have h1 : ∀ r : BankRecord,
      (decide (r.type = RecordKind.demand) && decide (r.uid = uid ∧ r.currency = cur)) =
        decide (r.uid = uid ∧ r.currency = cur ∧ r.type = RecordKind.demand) := by
    intro r
    rcases Decidable.em (r.uid = uid ∧ r.currency = cur) with h | h <;>
      rcases Decidable.em (r.type = RecordKind.demand) with h2 | h2 <;>
        simp [h, h2]
  have h2 : ∀ r : BankRecord,
      (decide (r.type ≠ RecordKind.demand) && decide (r.uid = uid ∧ r.currency = cur)) =
        decide (r.uid = uid ∧ r.currency = cur ∧ r.type ≠ RecordKind.demand) := by
    intro r
    rcases Decidable.em (r.uid = uid ∧ r.currency = cur) with h | h <;>
      rcases Decidable.em (r.type = RecordKind.demand) with h2 | h2 <;>
        simp [h, h2]
  rw [List.filter_congr fun r _ => h1 r, List.filter_congr fun r _ => h2 r]

theorem getBankBalance_total (st : BankState) (uid : Nat) (cur : String) :
    (getBankBalance st uid cur).total =
      (getBankBalance st uid cur).demand + (getBankBalance st uid cur).fixed := by
  rw [getBankBalance_split]

@[simp] theorem createMonetaryUser_records (st : BankState) (uid : Nat) (cur : String) :
    (createMonetaryUser st uid cur).records = st.records := rfl

theorem changeMonetary_some {st : BankState} {uid : Nat} {cur : String} {δ v : ℚ}
    {st' : BankState} (h : changeMonetary st uid cur δ = some (v, st')) :
    st'.records = st.records ∧ v = cashOf st uid cur + δ ∧ 0 ≤ v ∧
      lookupCash st'.cash (uid, cur) = some v := by
  simp only [changeMonetary] at h
  rcases hl : lookupCash st.cash (uid, cur) with _ | c <;> rw [hl] at h <;>
    simp only at h <;> split at h
  · exact absurd h (by simp)
  · rename_i hnn
    simp only [Option.some.injEq, Prod.mk.injEq] at h
    obtain ⟨hv, hst⟩ := h
    subst hv
    subst hst
    refine ⟨rfl, by simp [cashOf, hl], by linarith [not_lt.mp hnn],
      lookupCash_setCash_same _ _ _⟩
  · exact absurd h (by simp)
  · rename_i hnn
    simp only [Option.some.injEq, Prod.mk.injEq] at h
    obtain ⟨hv, hst⟩ := h
    subst hv
    subst hst
    refine ⟨rfl, by simp [cashOf, hl], by linarith [not_lt.mp hnn],
      lookupCash_setCash_same _ _ _⟩

theorem changeMonetary_eq_none {st : BankState} {uid : Nat} {cur : String} {δ : ℚ} :
    changeMonetary st uid cur δ = none ↔ cashOf st uid cur + δ < 0 := by
  simp only [changeMonetary]
  rcases hl : lookupCash st.cash (uid, cur) with _ | c <;>
    simp [cashOf, hl]

/-- New-deposit settlement dates: today's midnight, one grace day, one cycle. -/
theorem calcNext_new (c : Cycle) (now : ℤ) :
    calculateNextSettlementDate c true now =
      midnight now + dayMs + cycleDays c * dayMs := by
  simp [calculateNextSettlementDate]

/-- Settlement-time rescheduling: today's midnight plus one cycle, no grace. -/
theorem calcNext_old (c : Cycle) (now : ℤ) :
    calculateNextSettlementDate c false now =
      midnight now + cycleDays c * dayMs := by
  simp [calculateNextSettlementDate]

/-- Records that are not due pass through the settlement sweep unchanged. -/
theorem flatMap_not_due (cfg : BankConfig) (now : ℤ) (l : List BankRecord)
    (h : ∀ x ∈ l, ¬ midnight x.settlementDate ≤ midnight now) :
    (l.flatMap fun r =>
      if midnight r.settlementDate ≤ midnight now then settleInterest cfg now r
      else [r]) = l := by
  induction l with
  | nil => rfl
  | cons a as ih =>
    rw [List.flatMap_cons, if_neg (h a (by simp)),
      ih fun x hx => h x (by simp [hx])]
    rfl

/-! ### Concrete fixtures used by the claim theorems -/

/-- A configuration with demand interest enabled. -/
def sampleCfg : BankConfig :=
  { demandInterest := { enabled := true, rate := 5, cycle := .day },
    fixedInterest := [{ name := "week", rate := 5, cycle := .week }],
    enableInterest := true }

/-- A configuration with demand interest disabled. -/
def sampleCfgOff : BankConfig :=
  { demandInterest := { enabled := false, rate := 5, cycle := .day },
    fixedInterest := [{ name := "week", rate := 5, cycle := .week }],
    enableInterest := true }

/-! ### C7: settlement of a due demand record -/

/-- C7 (amended): settling a due demand record computes
`interest = floor(amount * rate / 100)` (which, principal and rate being
non-negative, coincides with truncation toward zero also for fractional
amounts), replaces the record's amount with `amount + interest` in place,
keeps the record demand, and sets the next settlement date to exactly one
cycle length after the current day's midnight (the day settlement runs),
with no additional T+1 grace. -/
theorem c7_demand_settlement (cfg : BankConfig) (now : ℤ) (r : BankRecord)
    (ht : r.type = RecordKind.demand) (ha : 0 ≤ r.amount) (hr : 0 ≤ r.rate) :
    settleInterest cfg now r =
      [{ r with
          amount := r.amount + ((⌊r.amount * r.rate / 100⌋ : ℤ) : ℚ),
          settlementDate := midnight now + cycleDays r.cycle * dayMs }] ∧
    (0 : ℤ) ≤ ⌊r.amount * r.rate / 100⌋ ∧
    ⌊r.amount * r.rate / 100⌋ =
      (r.amount * r.rate / 100).num.tdiv (r.amount * r.rate / 100).den := by
  have hq : (0 : ℚ) ≤ r.amount * r.rate / 100 := by positivity
  refine ⟨?_, Int.floor_nonneg.mpr hq, ?_⟩
  · simp [settleInterest, ht, calcNext_old]
  · rw [Rat.floor_def]
    exact (Int.tdiv_eq_ediv (Rat.num_nonneg.mpr hq) (by positivity)).symm

/-- Record exhibiting that overdue demand records are rescheduled relative
to the settlement day, not their stored settlement date. -/
def c7Record : BankRecord :=
  { uid := 1, currency := "coin", amount := 100, type := .demand, rate := 0,
    cycle := .day, settlementDate := 0 }

/-- C7 counterexample: a demand record due at epoch midnight but settled
three days later (the sweep settles every record with
`settlementDate <= today`) is rescheduled to day 4, not to one cycle after
its stored settlement date (day 1) as the claim states. -/
theorem c7_counterexample :
    midnight c7Record.settlementDate ≤ midnight (3 * dayMs) ∧
    (settleInterest sampleCfg (3 * dayMs) c7Record).map BankRecord.settlementDate =
      [4 * dayMs] ∧
    c7Record.settlementDate + cycleDays c7Record.cycle * dayMs = dayMs ∧
    (4 * dayMs : ℤ) ≠ dayMs := by
  refine ⟨by decide, ?_, by decide, by decide⟩
  simp [settleInterest, c7Record, sampleCfg, calcNext_old]
  decide

/-- C7 witness: the amended statement applied to a concrete due record. -/
theorem c7_demand_settlement_witness :
    c7Record.type = RecordKind.demand ∧ (0 : ℚ) ≤ c7Record.amount ∧
      (0 : ℚ) ≤ c7Record.rate ∧
      settleInterest sampleCfg 0 c7Record =
        [{ c7Record with
            amount := c7Record.amount +
              ((⌊c7Record.amount * c7Record.rate / 100⌋ : ℤ) : ℚ),
            settlementDate := midnight 0 + cycleDays c7Record.cycle * dayMs }] :=
  ⟨rfl, by decide, by decide,
    (c7_demand_settlement sampleCfg 0 c7Record rfl (by decide) (by decide)).1⟩

/-! ### C8: settlement of a due fixed record -/

/-- C8: at settlement, a fixed record with a requested extension gains
`floor(amount * rate / 100)`, adopts `nextRate` / `nextCycle` as its new
rate and cycle, has the extension flag and pending fields cleared, and
remains fixed; a fixed record without extension, with demand interest
enabled, is deleted and replaced by exactly one demand record with
principal `amount + interest` at the configured demand rate and cycle; in
particular a fixed record of 1000 at rate 5 without extension yields one
demand record of 1050 and no remaining fixed record. -/
theorem c8_fixed_maturity (cfg : BankConfig) (now : ℤ) (r : BankRecord)
    (ht : r.type = RecordKind.fixed) :
    (∀ nr nc, r.extendRequested = true → r.nextRate = some nr →
      r.nextCycle = some nc →
      settleInterest cfg now r =
        [{ r with
            amount := r.amount + ((⌊r.amount * r.rate / 100⌋ : ℤ) : ℚ),
            rate := nr, cycle := nc,
            settlementDate := midnight now + cycleDays nc * dayMs,
            extendRequested := false, nextRate := none, nextCycle := none }]) ∧
    (r.extendRequested = false → cfg.demandInterest.enabled = true →
      settleInterest cfg now r =
        [{ uid := r.uid, currency := r.currency,
           amount := r.amount + ((⌊r.amount * r.rate / 100⌋ : ℤ) : ℚ),
           type := RecordKind.demand, rate := cfg.demandInterest.rate,
           cycle := cfg.demandInterest.cycle,
           settlementDate := midnight now + cycleDays cfg.demandInterest.cycle * dayMs,
           extendRequested := false }]) ∧
    (r.amount = 1000 → r.rate = 5 → r.extendRequested = false →
      cfg.demandInterest.enabled = true →
      (settleInterest cfg now r).map (fun x => (x.amount, x.type)) =
        [((1050 : ℚ), RecordKind.demand)]) := by
  refine ⟨?_, ?_, ?_⟩
  · intro nr nc hext hnr hnc
    simp [settleInterest, ht, hext, hnr, hnc, calcNext_old]
  · intro hext hen
    simp [settleInterest, ht, hext, hen, calcNext_old]
  · intro hamt hrate hext hen
    simp [settleInterest, ht, hext, hen, hamt, hrate]
    norm_num

/-- Fixture for the C8 witness: a due fixed deposit of 1000 at 5%. -/
def c8Record : BankRecord :=
  { uid := 1, currency := "coin", amount := 1000, type := .fixed, rate := 5,
    cycle := .week, settlementDate := 0 }

/-- C8 witness: the concrete 1000-at-5% maturity conversion. -/
theorem c8_fixed_maturity_witness :
    (settleInterest sampleCfg 0 c8Record).map (fun x => (x.amount, x.type)) =
      [((1050 : ℚ), RecordKind.demand)] :=
  (c8_fixed_maturity sampleCfg 0 c8Record rfl).2.2 rfl rfl rfl rfl

/-! ### C10: fixed maturity with demand interest disabled -/

/-- C10: when demand interest is disabled, settling a due fixed record with
no requested extension deletes the record, creates no replacement and never
touches cash, so the user's total drops by the record's principal while all
other records and the cash table are unchanged. -/
theorem c10_disabled_conversion_loss (cfg : BankConfig) (now : ℤ)
    (st : BankState) (r : BankRecord) (l1 l2 : List BankRecord)
    (hrecs : st.records = l1 ++ r :: l2)
    (ht : r.type = RecordKind.fixed) (hext : r.extendRequested = false)
    (hoff : cfg.demandInterest.enabled = false)
    (hdue : midnight r.settlementDate ≤ midnight now)
    (hothers : ∀ x ∈ l1 ++ l2, ¬ midnight x.settlementDate ≤ midnight now) :
    settleInterest cfg now r = [] ∧
    (settleSweep cfg now st).records = l1 ++ l2 ∧
    (settleSweep cfg now st).cash = st.cash ∧
    (getBankBalance (settleSweep cfg now st) r.uid r.currency).total =
      (getBankBalance st r.uid r.currency).total - r.amount := by
  have hempty : settleInterest cfg now r = [] := by
    simp [settleInterest, ht, hext, hoff]
  have h1 : ∀ x ∈ l1, ¬ midnight x.settlementDate ≤ midnight now :=
    fun x hx => hothers x (by simp [hx])
  have h2 : ∀ x ∈ l2, ¬ midnight x.settlementDate ≤ midnight now :=
    fun x hx => hothers x (by simp [hx])
  have hrecords : (settleSweep cfg now st).records = l1 ++ l2 := by
    simp only [settleSweep, hrecs, List.flatMap_append, List.flatMap_cons]
    rw [flatMap_not_due cfg now l1 h1, flatMap_not_due cfg now l2 h2,
      if_pos hdue, hempty]
    simp
  refine ⟨hempty, hrecords, rfl, ?_⟩
  have hdf : (r :: l2).filter
        (fun x => decide (x.uid = r.uid ∧ x.currency = r.currency ∧
          x.type = RecordKind.demand)) =
      l2.filter (fun x => decide (x.uid = r.uid ∧ x.currency = r.currency ∧
        x.type = RecordKind.demand)) :=
    List.filter_cons_of_neg (by simp [ht])
  have hff : (r :: l2).filter
        (fun x => decide (x.uid = r.uid ∧ x.currency = r.currency ∧
          x.type ≠ RecordKind.demand)) =
      r :: l2.filter (fun x => decide (x.uid = r.uid ∧ x.currency = r.currency ∧
        x.type ≠ RecordKind.demand)) :=
    List.filter_cons_of_pos (by simp [ht])
  rw [getBankBalance_split, getBankBalance_split]
  dsimp only
  simp only [demandRecordsOf, fixedRecordsOf, hrecords, hrecs,
    List.filter_append, hdf, hff, amountSum_append, amountSum_cons]
  ring

/-- Fixture for the C10 witness: a due fixed deposit of 1000 at 5%. -/
def c10Record : BankRecord :=
  { uid := 1, currency := "coin", amount := 1000, type := .fixed, rate := 5,
    cycle := .week, settlementDate := 0 }

/-- C10 witness: the statement applied to a one-record ledger. -/
theorem c10_disabled_conversion_loss_witness :
    settleInterest sampleCfgOff 0 c10Record = [] ∧
    (settleSweep sampleCfgOff 0 ⟨[c10Record], []⟩).records = [] ++ [] ∧
    (settleSweep sampleCfgOff 0 ⟨[c10Record], []⟩).cash =
      (⟨[c10Record], []⟩ : BankState).cash ∧
    (getBankBalance (settleSweep sampleCfgOff 0 ⟨[c10Record], []⟩)
        c10Record.uid c10Record.currency).total =
      (getBankBalance ⟨[c10Record], []⟩ c10Record.uid c10Record.currency).total -
        c10Record.amount :=
  c10_disabled_conversion_loss sampleCfgOff 0 ⟨[c10Record], []⟩ c10Record [] []
    rfl rfl rfl rfl (by decide) (by simp)

/-! ### C9: settlement dates of new deposits and fixed terms -/

/-- Success-path characterisation of `deposit`: with an existing cash row
holding at least the amount, the deposit succeeds, debits the cash row and
appends exactly one demand record. -/
theorem deposit_spec (cfg : BankConfig) (now : ℤ) (st : BankState) (uid : Nat)
    (cur : String) (a c : ℚ)
    (hl : lookupCash st.cash (uid, cur) = some c)
    (hpos : 0 < a) (hc : a ≤ c) :
    ((deposit cfg now st uid cur a).1).success = true ∧
    ((deposit cfg now st uid cur a).1).newCash = some (c - a) ∧
    (deposit cfg now st uid cur a).2.records =
      st.records ++ [depositRecord cfg now uid cur a] ∧
    lookupCash ((deposit cfg now st uid cur a).2).cash (uid, cur) =
      some (c - a) := by
  unfold deposit depositAux
  rw [if_neg (not_le.mpr hpos)]
  simp only [getMonetaryBalance, hl]
  rw [if_neg (not_lt.mpr hc)]
  rcases hcm : changeMonetary st uid cur (-a) with _ | p
  · rw [changeMonetary_eq_none] at hcm
    rw [cashOf, hl] at hcm
    simp only [Option.getD_some] at hcm
    linarith
  · obtain ⟨v, st2⟩ := p
    obtain ⟨hrec, hv, _, hlook⟩ := changeMonetary_some hcm
    rw [cashOf, hl] at hv
    simp only [Option.getD_some] at hv
    have hv' : v = c - a := by rw [hv]; ring
    subst hv'
    refine ⟨rfl, rfl, by simp [hrec], hlook⟩

/-- Success-path shape of the `bank.fixed` action: with a positive amount
covered by cash plus demand, the action appends exactly one fixed record
under the chosen plan. -/
theorem openFixedTerm_success_shape (now : ℤ) (st : BankState) (uid : Nat)
    (cur : String) (a : ℚ) (plan : FixedPlan)
    (h0 : 0 < a)
    (hg : ¬ (cashOf st uid cur + (getBankBalance st uid cur).demand < a)) :
    ∃ l, (openFixedTerm now st uid cur a plan).2.records =
      l ++ [fixedRecord plan now uid cur a] := by
  unfold openFixedTerm
  rw [if_neg (not_le.mpr h0)]
  simp only
  rw [if_neg hg]
  by_cases hcash : 0 < cashOf st uid cur
  · rw [if_pos hcash]
    rcases hcm : changeMonetary st uid cur (-(min (cashOf st uid cur) a)) with _ | p
    · rw [changeMonetary_eq_none] at hcm
      have := min_le_left (cashOf st uid cur) a
      linarith
    · exact ⟨_, rfl⟩
  · rw [if_neg hcash]
    exact ⟨_, rfl⟩

/-- C9: every new deposit and every newly opened fixed term stores a
settlement date equal to today's process-local midnight plus one grace day
plus one full cycle length, where a cycle is 1 day for day, 7 days for
week, and a fixed 30 days for month; in particular a new day-cycle deposit
gets midnight + 2 days and a new month-cycle fixed term midnight + 31
days. -/
theorem c9_settlement_date (cfg : BankConfig) (now : ℤ) (st : BankState)
    (uid : Nat) (cur : String) (a c : ℚ) (plan : FixedPlan)
    (hl : lookupCash st.cash (uid, cur) = some c)
    (hpos : 0 < a) (hc : a ≤ c)
    (hg : ¬ (cashOf st uid cur + (getBankBalance st uid cur).demand < a)) :
    (deposit cfg now st uid cur a).2.records =
      st.records ++ [depositRecord cfg now uid cur a] ∧
    (depositRecord cfg now uid cur a).settlementDate =
      midnight now + dayMs + cycleDays cfg.demandInterest.cycle * dayMs ∧
    (∃ l, (openFixedTerm now st uid cur a plan).2.records =
      l ++ [fixedRecord plan now uid cur a]) ∧
    (fixedRecord plan now uid cur a).settlementDate =
      midnight now + dayMs + cycleDays plan.cycle * dayMs ∧
    cycleDays Cycle.day = 1 ∧ cycleDays Cycle.week = 7 ∧
    cycleDays Cycle.month = 30 ∧
    (∀ t : ℤ, calculateNextSettlementDate Cycle.day true t =
      midnight t + 2 * dayMs) ∧
    (∀ t : ℤ, calculateNextSettlementDate Cycle.month true t =
      midnight t + 31 * dayMs) := by
  refine ⟨(deposit_spec cfg now st uid cur a c hl hpos hc).2.2.1,
    by simp [depositRecord, calcNext_new],
    openFixedTerm_success_shape now st uid cur a plan hpos hg,
    by simp [fixedRecord, calcNext_new], rfl, rfl, rfl, ?_, ?_⟩
  · intro t
    rw [calcNext_new]
    simp [cycleDays]
    ring
  · intro t
    rw [calcNext_new]
    simp [cycleDays]
    ring

/-- Fixture plan for witnesses. -/
def planW : FixedPlan := { name := "week", rate := 5, cycle := .week }

/-- Fixture ledger state with an empty record table and a cash row of 10. -/
def stW : BankState := { records := [], cash := [((1, "coin"), 10)] }

/-- C9 witness: the statement applied to a concrete deposit of 10. -/
theorem c9_settlement_date_witness :
    (deposit sampleCfg 0 stW 1 "coin" 10).2.records =
      stW.records ++ [depositRecord sampleCfg 0 1 "coin" 10] ∧
    (depositRecord sampleCfg 0 1 "coin" 10).settlementDate =
      midnight 0 + dayMs + cycleDays sampleCfg.demandInterest.cycle * dayMs ∧
    (∃ l, (openFixedTerm 0 stW 1 "coin" 10 planW).2.records =
      l ++ [fixedRecord planW 0 1 "coin" 10]) ∧
    (fixedRecord planW 0 1 "coin" 10).settlementDate =
      midnight 0 + dayMs + cycleDays planW.cycle * dayMs ∧
    cycleDays Cycle.day = 1 ∧ cycleDays Cycle.week = 7 ∧
    cycleDays Cycle.month = 30 ∧
    (∀ t : ℤ, calculateNextSettlementDate Cycle.day true t =
      midnight t + 2 * dayMs) ∧
    (∀ t : ℤ, calculateNextSettlementDate Cycle.month true t =
      midnight t + 31 * dayMs) :=
  c9_settlement_date sampleCfg 0 stW 1 "coin" 10 10 planW rfl (by decide)
    (by decide) (by simp [cashOf, stW, lookupCash, getBankBalance])

/-! ### C1: no rollback on external failures -/

/-- Fixture for C1: one demand record of 80 and a cash row of 10. -/
def c1DemandRecord : BankRecord :=
  { uid := 1, currency := "coin", amount := 80, type := .demand, rate := 5,
    cycle := .day, settlementDate := dayMs }

/-- Fixture state for C1. -/
def c1State : BankState :=
  { records := [c1DemandRecord], cash := [((1, "coin"), 10)] }

/-- C1 failing paths, evaluated concretely: when the cash credit of a
withdrawal fails, the operation returns `success = false` but the demand
records stay consumed (demand drops by the withdrawn amount) and the cash
is unchanged — the prior state is not restored; when the record creation of
a deposit fails, the operation returns `success = false` but the cash stays
debited and no record exists — the prior state is not restored. -/
theorem c1_no_rollback :
    (withdrawAux false c1State 1 "coin" 40).1.success = false ∧
    (withdrawAux false c1State 1 "coin" 40).2.records ≠ c1State.records ∧
    (getBankBalance (withdrawAux false c1State 1 "coin" 40).2 1 "coin").demand =
      (getBankBalance c1State 1 "coin").demand - 40 ∧
    (withdrawAux false c1State 1 "coin" 40).2.cash = c1State.cash ∧
    (depositAux false sampleCfg 0 c1State 1 "coin" 10).1.success = false ∧
    lookupCash (depositAux false sampleCfg 0 c1State 1 "coin" 10).2.cash
      (1, "coin") = some 0 ∧
    (depositAux false sampleCfg 0 c1State 1 "coin" 10).2.records =
      c1State.records := by
  norm_num [withdrawAux, depositAux, getBankBalance, c1State, c1DemandRecord,
    otherRecordsOf, demandRecordsOf, sortBySettlement, consumeDemand,
    amountSum, changeMonetary, getMonetaryBalance, lookupCash, cashOf,
    setCash, createMonetaryUser]

/-! ### C2: greedy oldest-first consumption in withdraw -/

/-- Demand record fixture for C2, with the shared user key. -/
def c2Rec (a : ℚ) (d : ℤ) : BankRecord :=
  { uid := 1, currency := "coin", amount := a, type := .demand, rate := 5,
    cycle := .day, settlementDate := d }

/-- C2: withdraw consumes demand records greedily in ascending
settlement-date order — with three demand records of 30, 50, 20 (oldest to
newest, listed in the table in a scrambled order), withdrawing 40 deletes
the oldest record, reduces the middle one to 40 and leaves records
[40, 20] with demand total 60; moreover the consumption loop always
removes exactly the requested amount from the consumed list. -/
theorem c2_greedy_withdraw (d1 d2 d3 : ℤ) (h12 : d1 < d2) (h23 : d2 < d3) :
    ((withdraw ⟨[c2Rec 50 d2, c2Rec 20 d3, c2Rec 30 d1], []⟩ 1 "coin" 40).1.success
        = true ∧
      (withdraw ⟨[c2Rec 50 d2, c2Rec 20 d3, c2Rec 30 d1], []⟩ 1 "coin" 40).2.records.map
        (fun r => (r.amount, r.settlementDate)) = [(40, d2), (20, d3)] ∧
      (getBankBalance
          (withdraw ⟨[c2Rec 50 d2, c2Rec 20 d3, c2Rec 30 d1], []⟩ 1 "coin" 40).2
          1 "coin").demand = 60) ∧
    (∀ (a : ℚ) (l : List BankRecord), 0 ≤ a → a ≤ amountSum l →
      amountSum (consumeDemand a l) = amountSum l - a) := by
  have h13 : d1 < d3 := lt_trans h12 h23
  refine ⟨?_, fun a l h1 h2 => amountSum_consumeDemand h1 h2⟩
  norm_num [withdraw, withdrawAux, getBankBalance, c2Rec, otherRecordsOf,
    demandRecordsOf, sortBySettlement, consumeDemand, amountSum,
    changeMonetary, getMonetaryBalance, lookupCash, cashOf, setCash,
    createMonetaryUser, not_le.mpr h12, not_le.mpr h13, h23.le]

/-- C2 witness: the statement applied at concrete dates on the day grid. -/
theorem c2_greedy_withdraw_witness :
    ((withdraw ⟨[c2Rec 50 dayMs, c2Rec 20 (2 * dayMs), c2Rec 30 0], []⟩
          1 "coin" 40).1.success = true ∧
      (withdraw ⟨[c2Rec 50 dayMs, c2Rec 20 (2 * dayMs), c2Rec 30 0], []⟩
          1 "coin" 40).2.records.map
        (fun r => (r.amount, r.settlementDate)) = [(40, dayMs), (20, 2 * dayMs)] ∧
      (getBankBalance
          (withdraw ⟨[c2Rec 50 dayMs, c2Rec 20 (2 * dayMs), c2Rec 30 0], []⟩
            1 "coin" 40).2 1 "coin").demand = 60) ∧
    (∀ (a : ℚ) (l : List BankRecord), 0 ≤ a → a ≤ amountSum l →
      amountSum (consumeDemand a l) = amountSum l - a) :=
  c2_greedy_withdraw 0 dayMs (2 * dayMs) (by decide) (by decide)

/-! ### Filter lemmas for the consumption state -/

theorem demandRecordsOf_mk (L : List BankRecord) (cl : List (CashKey × ℚ))
    (uid : Nat) (cur : String) :
    demandRecordsOf ⟨L, cl⟩ uid cur =
      L.filter (fun r => decide (r.uid = uid ∧ r.currency = cur ∧
        r.type = RecordKind.demand)) := rfl

theorem fixedRecordsOf_mk (L : List BankRecord) (cl : List (CashKey × ℚ))
    (uid : Nat) (cur : String) :
    fixedRecordsOf ⟨L, cl⟩ uid cur =
      L.filter (fun r => decide (r.uid = uid ∧ r.currency = cur ∧
        r.type ≠ RecordKind.demand)) := rfl

theorem filter_demand_otherRecordsOf (st : BankState) (uid : Nat) (cur : String) :
    (otherRecordsOf st uid cur).filter
      (fun r => decide (r.uid = uid ∧ r.currency = cur ∧
        r.type = RecordKind.demand)) = [] := by
  rw [List.filter_eq_nil_iff]
  intro x hx
  simp only [otherRecordsOf, List.mem_filter, decide_eq_true_eq] at hx
  simp only [decide_eq_true_eq]
  exact hx.2

theorem filter_fixed_otherRecordsOf (st : BankState) (uid : Nat) (cur : String) :
    (otherRecordsOf st uid cur).filter
      (fun r => decide (r.uid = uid ∧ r.currency = cur ∧
        r.type ≠ RecordKind.demand)) = fixedRecordsOf st uid cur := by
  unfold otherRecordsOf fixedRecordsOf
  rw [List.filter_filter]
  apply List.filter_congr
  intro r _
  rcases Decidable.em (r.uid = uid ∧ r.currency = cur) with h | h <;>
    rcases Decidable.em (r.type = RecordKind.demand) with h2 | h2 <;>
      simp [h, h2]

theorem filter_demand_consumeDemand (st : BankState) (uid : Nat) (cur : String)
    (a : ℚ) :
    (consumeDemand a (sortBySettlement (demandRecordsOf st uid cur))).filter
        (fun r => decide (r.uid = uid ∧ r.currency = cur ∧
          r.type = RecordKind.demand)) =
      consumeDemand a (sortBySettlement (demandRecordsOf st uid cur)) := by
  rw [List.filter_eq_self]
  intro x hx
  obtain ⟨y, hy, hxy⟩ := consumeDemand_shape x hx
  rw [mem_sortBySettlement] at hy
  simp only [demandRecordsOf, List.mem_filter, decide_eq_true_eq] at hy
  have huid0 := congrArg BankRecord.uid hxy
  have hcur0 := congrArg BankRecord.currency hxy
  have htyp0 := congrArg BankRecord.type hxy
  have huid : x.uid = y.uid := huid0
  have hcur : x.currency = y.currency := hcur0
  have htyp : x.type = y.type := htyp0
  simp only [decide_eq_true_eq]
  exact ⟨huid.trans hy.2.1, hcur.trans hy.2.2.1, htyp.trans hy.2.2.2⟩

theorem filter_fixed_consumeDemand (st : BankState) (uid : Nat) (cur : String)
    (a : ℚ) :
    (consumeDemand a (sortBySettlement (demandRecordsOf st uid cur))).filter
        (fun r => decide (r.uid = uid ∧ r.currency = cur ∧
          r.type ≠ RecordKind.demand)) = [] := by
  rw [List.filter_eq_nil_iff]
  intro x hx
  obtain ⟨y, hy, hxy⟩ := consumeDemand_shape x hx
  rw [mem_sortBySettlement] at hy
  simp only [demandRecordsOf, List.mem_filter, decide_eq_true_eq] at hy
  have htyp0 := congrArg BankRecord.type hxy
  have htyp : x.type = y.type := htyp0
  simp only [decide_eq_true_eq]
  intro hcon
  exact hcon.2.2 (htyp.trans hy.2.2.2)

/-- `getBankBalance` only reads the record table. -/
theorem getBankBalance_records_congr {st1 st2 : BankState}
    (h : st1.records = st2.records) (uid : Nat) (cur : String) :
    getBankBalance st1 uid cur = getBankBalance st2 uid cur := by
  unfold getBankBalance
  rw [h]

/-- Balance of the state produced by the demand-consumption loop: demand
drops by exactly the consumed amount, fixed records are untouched. -/
theorem getBankBalance_consumed (st : BankState) (uid : Nat) (cur : String)
    (a : ℚ) (cl : List (CashKey × ℚ))
    (h0 : 0 ≤ a) (hle : a ≤ (getBankBalance st uid cur).demand) :
    getBankBalance
        ⟨otherRecordsOf st uid cur ++
          consumeDemand a (sortBySettlement (demandRecordsOf st uid cur)), cl⟩
        uid cur =
      ⟨(getBankBalance st uid cur).demand - a + (getBankBalance st uid cur).fixed,
       (getBankBalance st uid cur).demand - a,
       (getBankBalance st uid cur).fixed⟩ := by
  have hle' : a ≤ amountSum (sortBySettlement (demandRecordsOf st uid cur)) := by
    rw [amountSum_sortBySettlement]
    rw [getBankBalance_split] at hle
    exact hle
  rw [getBankBalance_split, getBankBalance_split]
  rw [demandRecordsOf_mk, fixedRecordsOf_mk, List.filter_append,
    List.filter_append, filter_demand_otherRecordsOf,
    filter_demand_consumeDemand, filter_fixed_otherRecordsOf,
    filter_fixed_consumeDemand]
  rw [List.nil_append, List.append_nil]
  rw [amountSum_consumeDemand h0 hle', amountSum_sortBySettlement]

/-- Appending one matching fixed record adds its principal to the fixed
part of the balance. -/
theorem getBankBalance_append_fixed (recs : List BankRecord)
    (cl : List (CashKey × ℚ)) (uid : Nat) (cur : String) (r : BankRecord)
    (hu : r.uid = uid) (hc : r.currency = cur)
    (ht : r.type = RecordKind.fixed) :
    getBankBalance ⟨recs ++ [r], cl⟩ uid cur =
      ⟨(getBankBalance ⟨recs, cl⟩ uid cur).total + r.amount,
       (getBankBalance ⟨recs, cl⟩ uid cur).demand,
       (getBankBalance ⟨recs, cl⟩ uid cur).fixed + r.amount⟩ := by
  rw [getBankBalance_split, getBankBalance_split]
  dsimp only
  simp only [demandRecordsOf_mk, fixedRecordsOf_mk, List.filter_append]
  rw [List.filter_cons_of_neg (by simp [hu, hc, ht]),
    List.filter_cons_of_pos (by simp [hu, hc, ht])]
  simp only [List.filter_nil, amountSum_append, amountSum_cons, amountSum_nil,
    List.append_nil]
  congr 1 <;> ring

/-- Appending one matching demand record adds its principal to the demand
part of the balance. -/
theorem getBankBalance_append_demand (recs : List BankRecord)
    (cl : List (CashKey × ℚ)) (uid : Nat) (cur : String) (r : BankRecord)
    (hu : r.uid = uid) (hc : r.currency = cur)
    (ht : r.type = RecordKind.demand) :
    getBankBalance ⟨recs ++ [r], cl⟩ uid cur =
      ⟨(getBankBalance ⟨recs, cl⟩ uid cur).total + r.amount,
       (getBankBalance ⟨recs, cl⟩ uid cur).demand + r.amount,
       (getBankBalance ⟨recs, cl⟩ uid cur).fixed⟩ := by
  rw [getBankBalance_split, getBankBalance_split]
  dsimp only
  simp only [demandRecordsOf_mk, fixedRecordsOf_mk, List.filter_append]
  rw [List.filter_cons_of_pos (by simp [hu, hc, ht]),
    List.filter_cons_of_neg (by simp [hu, hc, ht])]
  simp only [List.filter_nil, amountSum_append, amountSum_cons, amountSum_nil,
    List.append_nil]
  congr 1 <;> ring

theorem demandRecordsOf_congr {st1 st2 : BankState}
    (h : st1.records = st2.records) (uid : Nat) (cur : String) :
    demandRecordsOf st1 uid cur = demandRecordsOf st2 uid cur := by
  unfold demandRecordsOf
  rw [h]

theorem otherRecordsOf_congr {st1 st2 : BankState}
    (h : st1.records = st2.records) (uid : Nat) (cur : String) :
    otherRecordsOf st1 uid cur = otherRecordsOf st2 uid cur := by
  unfold otherRecordsOf
  rw [h]

@[simp] theorem fixedRecord_amount (plan : FixedPlan) (now : ℤ) (uid : Nat)
    (cur : String) (a : ℚ) : (fixedRecord plan now uid cur a).amount = a := rfl

@[simp] theorem depositRecord_amount (cfg : BankConfig) (now : ℤ) (uid : Nat)
    (cur : String) (a : ℚ) : (depositRecord cfg now uid cur a).amount = a := rfl

/-- The `fromCash` component of a fixed-term outcome. -/
def fromCashOf : FixedOutcome → Option ℚ
  | .ok fc _ _ _ => some fc
  | .err _ => none

/-- The `fromDemand` component of a fixed-term outcome. -/
def fromDemandOf : FixedOutcome → Option ℚ
  | .ok _ fd _ _ => some fd
  | .err _ => none

/-! ### C4: fixed-term funding priority -/

/-- Fixture state for the C4 concrete instance: cash 50, demand 200. -/
def c4State : BankState :=
  { records := [{ uid := 1, currency := "coin", amount := 200,
                  type := .demand, rate := 5, cycle := .day,
                  settlementDate := 0 }],
    cash := [((1, "coin"), 50)] }

/-- C4: a fixed-term opening with current cash `c` and demand total `d`
fails without any mutation when `c + d < amount`; otherwise it debits
`fromCash = min(c, amount)` from cash and `fromDemand = amount - fromCash`
from the demand records, reports exactly that funding split, and appends
exactly one fixed record of the full amount under the chosen plan; in
particular opening 120 with cash 50 and demand 200 yields `fromCash = 50`
and `fromDemand = 70`. -/
theorem c4_fixed_funding (now : ℤ) (st : BankState) (uid : Nat) (cur : String)
    (a : ℚ) (plan : FixedPlan) (hpos : 0 < a)
    (hcash0 : 0 ≤ cashOf st uid cur) :
    (cashOf st uid cur + (getBankBalance st uid cur).demand < a →
      (openFixedTerm now st uid cur a plan).1 = FixedOutcome.err "资金不足" ∧
      (openFixedTerm now st uid cur a plan).2 = st) ∧
    (¬ cashOf st uid cur + (getBankBalance st uid cur).demand < a →
      fromCashOf (openFixedTerm now st uid cur a plan).1 =
        some (min (cashOf st uid cur) a) ∧
      fromDemandOf (openFixedTerm now st uid cur a plan).1 =
        some (a - min (cashOf st uid cur) a) ∧
      cashOf (openFixedTerm now st uid cur a plan).2 uid cur =
        cashOf st uid cur - min (cashOf st uid cur) a ∧
      getBankBalance (openFixedTerm now st uid cur a plan).2 uid cur =
        ⟨(getBankBalance st uid cur).demand - (a - min (cashOf st uid cur) a)
            + ((getBankBalance st uid cur).fixed + a),
          (getBankBalance st uid cur).demand - (a - min (cashOf st uid cur) a),
          (getBankBalance st uid cur).fixed + a⟩ ∧
      (∃ l, (openFixedTerm now st uid cur a plan).2.records =
        l ++ [fixedRecord plan now uid cur a])) ∧
    (fromCashOf (openFixedTerm 0 c4State 1 "coin" 120 planW).1 = some 50 ∧
      fromDemandOf (openFixedTerm 0 c4State 1 "coin" 120 planW).1 =
        some 70) := by
  refine ⟨?_, ?_, ?_⟩
  · intro hg
    unfold openFixedTerm
    rw [if_neg (not_le.mpr hpos)]
    simp only
    rw [if_pos hg]
    exact ⟨rfl, rfl⟩
  · intro hg
    unfold openFixedTerm
    rw [if_neg (not_le.mpr hpos)]
    simp only
    rw [if_neg hg]
    by_cases hc : 0 < cashOf st uid cur
    · rw [if_pos hc]
      rcases hcm : changeMonetary st uid cur (-(min (cashOf st uid cur) a)) with _ | p
      · rw [changeMonetary_eq_none] at hcm
        have := min_le_left (cashOf st uid cur) a
        linarith
      obtain ⟨v, st1⟩ := p
      obtain ⟨hrec1, hv, hnn, hlook1⟩ := changeMonetary_some hcm
      simp only [Option.map_some']
      by_cases hrem : 0 < a - min (cashOf st uid cur) a
      · rw [if_pos hrem, if_pos hrem]
        have hminlt : min (cashOf st uid cur) a < a := by linarith
        have hmin : min (cashOf st uid cur) a = cashOf st uid cur := by
          rcases min_cases (cashOf st uid cur) a with ⟨h1, _⟩ | ⟨h1, h2⟩
          · exact h1
          · exfalso; rw [h1] at hminlt; exact lt_irrefl a hminlt
        have hle : a - min (cashOf st uid cur) a ≤
            (getBankBalance st uid cur).demand := by
          rw [hmin]; linarith [not_lt.mp hg]
        have hbal2 : getBankBalance
            ⟨otherRecordsOf st uid cur ++
              consumeDemand (a - min (cashOf st uid cur) a)
                (sortBySettlement (demandRecordsOf st uid cur)), st1.cash⟩
              uid cur =
            ⟨(getBankBalance st uid cur).demand -
                (a - min (cashOf st uid cur) a) +
                (getBankBalance st uid cur).fixed,
              (getBankBalance st uid cur).demand -
                (a - min (cashOf st uid cur) a),
              (getBankBalance st uid cur).fixed⟩ :=
          getBankBalance_consumed st uid cur _ st1.cash hrem.le hle
      -- the produced final state
        rw [otherRecordsOf_congr hrec1, demandRecordsOf_congr hrec1]
        refine ⟨rfl, rfl, ?_, ?_, ⟨_, rfl⟩⟩
        · show (lookupCash st1.cash (uid, cur)).getD 0 =
            cashOf st uid cur - min (cashOf st uid cur) a
          rw [hlook1]
          simp only [Option.getD_some]
          rw [hv]; ring
        · rw [getBankBalance_append_fixed _ _ uid cur _ rfl rfl rfl, hbal2]
          dsimp only
          simp only [fixedRecord_amount]
          congr 1
          ring
      · rw [if_neg hrem, if_neg hrem]
        have hmin : min (cashOf st uid cur) a = a := by
          have h1 := min_le_right (cashOf st uid cur) a
          have h2 := not_lt.mp hrem
          linarith
        refine ⟨rfl, by rw [hmin]; simp [fromDemandOf], ?_, ?_, ⟨_, rfl⟩⟩
        · show (lookupCash st1.cash (uid, cur)).getD 0 =
            cashOf st uid cur - min (cashOf st uid cur) a
          rw [hlook1]
          simp only [Option.getD_some]
          rw [hv]; ring
        · rw [getBankBalance_append_fixed _ _ uid cur _ rfl rfl rfl]
          rw [getBankBalance_records_congr (show st1.records =
            st.records from hrec1) uid cur]
          rw [getBankBalance_total]
          rw [hmin]
          simp only [fixedRecord_amount]
          congr 1 <;> ring
    · rw [if_neg hc]
      have hc0 : cashOf st uid cur = 0 := le_antisymm (not_lt.mp hc) hcash0
      have hmin : min (cashOf st uid cur) a = 0 := by
        rw [hc0]; exact min_eq_left hpos.le
      simp only
      rw [sub_zero, if_pos hpos, if_pos hpos]
      have hle : a ≤ (getBankBalance st uid cur).demand := by
        rw [hc0] at hg; linarith [not_lt.mp hg]
      have hbal2 : getBankBalance
          ⟨otherRecordsOf st uid cur ++
            consumeDemand a (sortBySettlement (demandRecordsOf st uid cur)),
            st.cash⟩ uid cur =
          ⟨(getBankBalance st uid cur).demand - a +
              (getBankBalance st uid cur).fixed,
            (getBankBalance st uid cur).demand - a,
            (getBankBalance st uid cur).fixed⟩ :=
        getBankBalance_consumed st uid cur a st.cash hpos.le hle
      refine ⟨by rw [hmin]; simp [fromCashOf],
        by rw [hmin, sub_zero]; simp [fromDemandOf], ?_, ?_, ⟨_, rfl⟩⟩
      · rw [hmin, sub_zero]
        rfl
      · rw [getBankBalance_append_fixed _ _ uid cur _ rfl rfl rfl, hbal2]
        dsimp only
        rw [hmin, sub_zero]
        simp only [fixedRecord_amount]
        congr 1
        ring
  · constructor <;>
      norm_num [openFixedTerm, c4State, planW, cashOf, lookupCash,
        getBankBalance, amountSum, changeMonetary, getMonetaryBalance,
        createMonetaryUser, setCash, otherRecordsOf, demandRecordsOf,
        sortBySettlement, consumeDemand, min_def, fromCashOf, fromDemandOf]

/-- C4 witness: the statement applied to the cash-50 / demand-200 ledger. -/
theorem c4_fixed_funding_witness :
    fromCashOf (openFixedTerm 0 c4State 1 "coin" 120 planW).1 = some 50 ∧
    fromDemandOf (openFixedTerm 0 c4State 1 "coin" 120 planW).1 = some 70 :=
  (c4_fixed_funding 0 c4State 1 "coin" 120 planW (by decide) (by decide)).2.2

/-! ### C3: deposit-withdraw round trip -/

/-- C3: for a positive amount covered by the user's cash, depositing and
then immediately withdrawing the same amount, with no settlement in
between, returns both the cash balance and the total bank balance to their
values before the deposit. -/
theorem c3_round_trip (cfg : BankConfig) (now : ℤ) (st : BankState)
    (uid : Nat) (cur : String) (a : ℚ)
    (hpos : 0 < a) (hcash : a ≤ cashOf st uid cur)
    (hd : 0 ≤ (getBankBalance st uid cur).demand) :
    ((withdraw (deposit cfg now st uid cur a).2 uid cur a).1).success = true ∧
    cashOf (withdraw (deposit cfg now st uid cur a).2 uid cur a).2 uid cur =
      cashOf st uid cur ∧
    (getBankBalance (withdraw (deposit cfg now st uid cur a).2 uid cur a).2
        uid cur).total = (getBankBalance st uid cur).total := by
  rcases hl0 : lookupCash st.cash (uid, cur) with _ | c
  · rw [cashOf, hl0] at hcash
    simp only [Option.getD_none] at hcash
    linarith
  have hcashc : a ≤ c := by
    rw [cashOf, hl0] at hcash
    simpa using hcash
  obtain ⟨hsucc, hnc, hrecs1, hlook1⟩ :=
    deposit_spec cfg now st uid cur a c hl0 hpos hcashc
  set st1 := (deposit cfg now st uid cur a).2 with hst1
  have hb1 := getBankBalance_append_demand st.records st1.cash uid cur
    (depositRecord cfg now uid cur a) rfl rfl rfl
  have hb0 : getBankBalance (⟨st.records, st1.cash⟩ : BankState) uid cur =
      getBankBalance st uid cur :=
    getBankBalance_records_congr rfl uid cur
  have hbal1 : getBankBalance st1 uid cur =
      ⟨(getBankBalance st uid cur).total + a,
        (getBankBalance st uid cur).demand + a,
        (getBankBalance st uid cur).fixed⟩ := by
    rw [show getBankBalance st1 uid cur =
        getBankBalance (⟨st.records ++ [depositRecord cfg now uid cur a],
          st1.cash⟩ : BankState) uid cur from
      getBankBalance_records_congr hrecs1 uid cur]
    rw [hb1, hb0]
    simp only [depositRecord_amount]
  unfold withdraw withdrawAux
  rw [if_neg (not_le.mpr hpos)]
  simp only
  rw [hbal1]
  rw [if_neg (show ¬ (⟨(getBankBalance st uid cur).total + a,
      (getBankBalance st uid cur).demand + a,
      (getBankBalance st uid cur).fixed⟩ : BankBalance).demand < a by
    dsimp only
    linarith)]
  have hc2 : cashOf ({ st1 with records := (otherRecordsOf st1 uid cur ++
      consumeDemand a (sortBySettlement (demandRecordsOf st1 uid cur))) })
        uid cur = c - a := by
    show (lookupCash st1.cash (uid, cur)).getD 0 = c - a
    rw [hlook1]
    rfl
  rcases hcm2 : changeMonetary ({ st1 with records :=
      (otherRecordsOf st1 uid cur ++
        consumeDemand a (sortBySettlement (demandRecordsOf st1 uid cur))) })
      uid cur a with _ | q
  · rw [changeMonetary_eq_none] at hcm2
    rw [hc2] at hcm2
    linarith
  obtain ⟨v, st3⟩ := q
  obtain ⟨hrec3, hv3, hnn3, hlook3⟩ := changeMonetary_some hcm2
  rw [hc2] at hv3
  refine ⟨rfl, ?_, ?_⟩
  · show (lookupCash st3.cash (uid, cur)).getD 0 = cashOf st uid cur
    rw [hlook3]
    simp only [Option.getD_some]
    rw [hv3, cashOf, hl0]
    simp only [Option.getD_some]
    ring
  · have hle1 : a ≤ (getBankBalance st1 uid cur).demand := by
      rw [hbal1]
      dsimp only
      linarith
    have hcons := getBankBalance_consumed st1 uid cur a st1.cash hpos.le hle1
    show (getBankBalance st3 uid cur).total = (getBankBalance st uid cur).total
    rw [getBankBalance_records_congr (show st3.records =
        (⟨otherRecordsOf st1 uid cur ++
          consumeDemand a (sortBySettlement (demandRecordsOf st1 uid cur)),
          st1.cash⟩ : BankState).records from hrec3) uid cur]
    rw [hcons, hbal1]
    dsimp only
    rw [getBankBalance_total]
    ring

/-- C3 witness: the round trip applied to a deposit of 10 on a cash row of
10 with an empty record table. -/
theorem c3_round_trip_witness :
    ((withdraw (deposit sampleCfg 0 stW 1 "coin" 10).2 1 "coin" 10).1).success
      = true ∧
    cashOf (withdraw (deposit sampleCfg 0 stW 1 "coin" 10).2 1 "coin" 10).2
      1 "coin" = cashOf stW 1 "coin" ∧
    (getBankBalance
        (withdraw (deposit sampleCfg 0 stW 1 "coin" 10).2 1 "coin" 10).2
        1 "coin").total = (getBankBalance stW 1 "coin").total :=
  c3_round_trip sampleCfg 0 stW 1 "coin" 10 (by decide) (by decide) (by decide)

/-! ### C6: the demand-record compactor -/

theorem midnight_idem (t : ℤ) : midnight (midnight t) = midnight t := by
  unfold midnight
  rw [Int.mul_ediv_cancel_left _ (by decide : dayMs ≠ 0)]

/-- Rows whose group is a singleton, kept as they are by the compactor. -/
def singlesPart (l : List BankRecord) : List BankRecord :=
  l.filter fun r => decide (keyCount l (groupKey r) = 1)

/-- Keys of the groups the compactor merges. -/
def bigKeys (l : List BankRecord) : List GroupKey :=
  ((l.map groupKey).dedup).filter fun k => decide (2 ≤ keyCount l k)

/-- The replacement rows the compactor creates. -/
def mergedPart (l : List BankRecord) : List BankRecord :=
  (bigKeys l).map fun k => mergedRecord k (groupSum l k)

theorem mergeDemandList_eq (l : List BankRecord) :
    mergeDemandList l = singlesPart l ++ mergedPart l := rfl

theorem groupKey_mergedRecord (r : BankRecord) (t : ℚ) :
    groupKey (mergedRecord (groupKey r) t) = groupKey r := by
  unfold groupKey mergedRecord
  simp [midnight_idem]

theorem groupKey_mergedRecord_of_mem {l : List BankRecord} {k : GroupKey}
    (hk : k ∈ (l.map groupKey).dedup) (t : ℚ) :
    groupKey (mergedRecord k t) = k := by
  rw [List.mem_dedup] at hk
  obtain ⟨r, _, rfl⟩ := List.mem_map.mp hk
  exact groupKey_mergedRecord r t

theorem mem_bigKeys {l : List BankRecord} {k : GroupKey} :
    k ∈ bigKeys l ↔ k ∈ (l.map groupKey).dedup ∧ 2 ≤ keyCount l k := by
  unfold bigKeys
  simp [List.mem_filter]

theorem groupKey_mem_dedup {l : List BankRecord} {k : GroupKey}
    (h : 0 < keyCount l k) : k ∈ (l.map groupKey).dedup := by
  unfold keyCount at h
  rw [List.countP_pos_iff] at h
  obtain ⟨r, hr, hrk⟩ := h
  rw [List.mem_dedup]
  simp only [decide_eq_true_eq] at hrk
  exact hrk ▸ List.mem_map_of_mem groupKey hr

theorem keyCount_singlesPart_le (l : List BankRecord) (k : GroupKey) :
    keyCount (singlesPart l) k ≤ keyCount l k := by
  unfold keyCount singlesPart
  rw [List.countP_filter]
  refine List.countP_mono_left fun r _ h => ?_
  simp only [Bool.and_eq_true] at h
  exact h.1

theorem keyCount_singlesPart_eq_zero {l : List BankRecord} {k : GroupKey}
    (h2 : 2 ≤ keyCount l k) : keyCount (singlesPart l) k = 0 := by
  unfold keyCount singlesPart
  rw [List.countP_eq_zero]
  intro r hr
  rw [List.mem_filter] at hr
  have hr2 := hr.2
  simp only [decide_eq_true_eq] at hr2 ⊢
  intro hrk
  rw [hrk] at hr2
  omega

theorem countP_key_le_one {ks : List GroupKey} (h : ks.Nodup) (k : GroupKey) :
    ks.countP (fun x => decide (x = k)) ≤ 1 := by
  induction ks with
  | nil => simp
  | cons a as ih =>
    rw [List.countP_cons]
    rcases List.nodup_cons.mp h with ⟨ha, has⟩
    by_cases hak : a = k
    · have hz : as.countP (fun x => decide (x = k)) = 0 := by
        rw [List.countP_eq_zero]
        intro x hx
        simp only [decide_eq_true_eq]
        intro hxk
        exact ha (by rw [hak, ← hxk]; exact hx)
      simp [hz, hak]
    · have := ih has
      simp only [hak, decide_eq_true_eq]
      simp [hak]
      omega

theorem filter_key_singleton {ks : List GroupKey} (h : ks.Nodup) {k : GroupKey}
    (hk : k ∈ ks) : ks.filter (fun x => decide (x = k)) = [k] := by
  induction ks with
  | nil => cases hk
  | cons a as ih =>
    rcases List.nodup_cons.mp h with ⟨ha, has⟩
    rcases List.mem_cons.mp hk with hka | hmem
    · rw [List.filter_cons_of_pos (by simp [hka])]
      have hz : as.filter (fun x => decide (x = k)) = [] := by
        rw [List.filter_eq_nil_iff]
        intro x hx
        simp only [decide_eq_true_eq]
        intro hxk
        exact ha (by rw [← hka, ← hxk]; exact hx)
      rw [hz, hka]
    · rw [List.filter_cons_of_neg (by
        simp only [decide_eq_true_eq]
        intro hak
        exact ha (hak ▸ hmem))]
      exact ih has hmem

theorem keyCount_mergedPart_le_one (l : List BankRecord) (k : GroupKey) :
    keyCount (mergedPart l) k ≤ 1 := by
  unfold keyCount mergedPart
  rw [List.countP_map]
  have hnodup : (bigKeys l).Nodup :=
    List.Nodup.filter _ (List.nodup_dedup _)
  calc List.countP ((fun r => decide (groupKey r = k)) ∘
        (fun k' => mergedRecord k' (groupSum l k'))) (bigKeys l)
      = List.countP (fun x => decide (x = k)) (bigKeys l) :=
        List.countP_congr fun k' hk' => by
          simp only [Function.comp_apply, decide_eq_true_eq]
          rw [groupKey_mergedRecord_of_mem (mem_bigKeys.mp hk').1]
    _ ≤ 1 := countP_key_le_one hnodup k

theorem keyCount_mergedPart_eq_zero {l : List BankRecord} {k : GroupKey}
    (h : keyCount l k ≤ 1) : keyCount (mergedPart l) k = 0 := by
  unfold keyCount mergedPart
  rw [List.countP_eq_zero]
  intro r hr
  rw [List.mem_map] at hr
  obtain ⟨k', hk', rfl⟩ := hr
  obtain ⟨hkd, hk2⟩ := mem_bigKeys.mp hk'
  simp only [decide_eq_true_eq]
  rw [groupKey_mergedRecord_of_mem hkd]
  intro hk'k
  rw [hk'k] at hk2
  omega

theorem keyCount_mergeDemandList_le_one (l : List BankRecord) (k : GroupKey) :
    keyCount (mergeDemandList l) k ≤ 1 := by
  rw [mergeDemandList_eq]
  unfold keyCount
  rw [List.countP_append]
  have hps : List.countP (fun r => decide (groupKey r = k)) (singlesPart l) =
      keyCount (singlesPart l) k := rfl
  have hpm : List.countP (fun r => decide (groupKey r = k)) (mergedPart l) =
      keyCount (mergedPart l) k := rfl
  rw [hps, hpm]
  by_cases h2 : 2 ≤ keyCount l k
  · have h0 := keyCount_singlesPart_eq_zero h2
    have h1 := keyCount_mergedPart_le_one l k
    omega
  · have h1 := keyCount_singlesPart_le l k
    have h0 := keyCount_mergedPart_eq_zero (l := l) (k := k) (by omega)
    omega

theorem mergeDemandList_idem (l : List BankRecord) :
    mergeDemandList (mergeDemandList l) = mergeDemandList l := by
  have hle := keyCount_mergeDemandList_le_one l
  have hsingles : singlesPart (mergeDemandList l) = mergeDemandList l := by
    unfold singlesPart
    rw [List.filter_eq_self]
    intro r hr
    simp only [decide_eq_true_eq]
    have hpos : 0 < keyCount (mergeDemandList l) (groupKey r) := by
      unfold keyCount
      rw [List.countP_pos_iff]
      exact ⟨r, hr, by simp⟩
    have := hle (groupKey r)
    omega
  have hbig : bigKeys (mergeDemandList l) = [] := by
    unfold bigKeys
    rw [List.filter_eq_nil_iff]
    intro k hk
    simp only [decide_eq_true_eq]
    have := hle k
    omega
  rw [mergeDemandList_eq (mergeDemandList l), hsingles]
  unfold mergedPart
  rw [hbig]
  simp

theorem mergeDemandList_group (l : List BankRecord) (k : GroupKey)
    (h2 : 2 ≤ keyCount l k) :
    (mergeDemandList l).filter (fun x => decide (groupKey x = k)) =
      [mergedRecord k (groupSum l k)] := by
  rw [mergeDemandList_eq, List.filter_append]
  have hs : (singlesPart l).filter (fun x => decide (groupKey x = k)) = [] := by
    have h0 := keyCount_singlesPart_eq_zero h2
    unfold keyCount at h0
    rwa [List.countP_eq_length_filter, List.length_eq_zero] at h0
  have hmk : k ∈ bigKeys l :=
    mem_bigKeys.mpr ⟨groupKey_mem_dedup (by omega), h2⟩
  have hmp : (mergedPart l).filter (fun x => decide (groupKey x = k)) =
      [mergedRecord k (groupSum l k)] := by
    unfold mergedPart
    rw [List.filter_map]
    have hnodup : (bigKeys l).Nodup :=
      List.Nodup.filter _ (List.nodup_dedup _)
    rw [List.filter_congr fun k' hk' => by
      simp only [Function.comp_apply]
      rw [groupKey_mergedRecord_of_mem (mem_bigKeys.mp hk').1]]
    rw [filter_key_singleton hnodup hmk]
    rfl
  rw [hs, hmp, List.nil_append]

theorem mergeDemandList_single {l : List BankRecord} {r : BankRecord}
    (hr : r ∈ l) (h1 : keyCount l (groupKey r) = 1) :
    r ∈ mergeDemandList l := by
  rw [mergeDemandList_eq]
  apply List.mem_append_left
  unfold singlesPart
  rw [List.mem_filter]
  exact ⟨hr, by simp [h1]⟩

theorem mergeDemandList_type {l : List BankRecord}
    (h : ∀ x ∈ l, x.type = RecordKind.demand) :
    ∀ x ∈ mergeDemandList l, x.type = RecordKind.demand := by
  rw [mergeDemandList_eq]
  intro x hx
  rcases List.mem_append.mp hx with hx | hx
  · exact h x (List.mem_of_mem_filter hx)
  · unfold mergedPart at hx
    rw [List.mem_map] at hx
    obtain ⟨k, _, rfl⟩ := hx
    rfl

theorem mergeDemandRecords_nondemand (st : BankState) :
    (mergeDemandRecords st).records.filter
        (fun x => decide (x.type ≠ RecordKind.demand)) =
      st.records.filter (fun x => decide (x.type ≠ RecordKind.demand)) := by
  have hd : ∀ x ∈ mergeDemandList
      (st.records.filter fun r => decide (r.type = RecordKind.demand)),
      x.type = RecordKind.demand :=
    mergeDemandList_type fun x hx => by
      have := (List.mem_filter.mp hx).2
      simpa using this
  have hFF : (st.records.filter
        fun r => decide (r.type ≠ RecordKind.demand)).filter
        (fun x => decide (x.type ≠ RecordKind.demand)) =
      st.records.filter fun r => decide (r.type ≠ RecordKind.demand) :=
    List.filter_eq_self.mpr fun x hx => (List.mem_filter.mp hx).2
  have hMF : (mergeDemandList (st.records.filter
        fun r => decide (r.type = RecordKind.demand))).filter
        (fun x => decide (x.type ≠ RecordKind.demand)) = [] :=
    List.filter_eq_nil_iff.mpr fun x hx => by simp [hd x hx]
  show ((st.records.filter fun r => decide (r.type ≠ RecordKind.demand)) ++
      mergeDemandList
        (st.records.filter fun r => decide (r.type = RecordKind.demand))).filter
      (fun x => decide (x.type ≠ RecordKind.demand)) = _
  rw [List.filter_append, hFF, hMF, List.append_nil]

theorem mergeDemandRecords_demand (st : BankState) :
    (mergeDemandRecords st).records.filter
        (fun x => decide (x.type = RecordKind.demand)) =
      mergeDemandList
        (st.records.filter fun r => decide (r.type = RecordKind.demand)) := by
  have hd : ∀ x ∈ mergeDemandList
      (st.records.filter fun r => decide (r.type = RecordKind.demand)),
      x.type = RecordKind.demand :=
    mergeDemandList_type fun x hx => by
      have := (List.mem_filter.mp hx).2
      simpa using this
  have hFD : (st.records.filter
        fun r => decide (r.type ≠ RecordKind.demand)).filter
        (fun x => decide (x.type = RecordKind.demand)) = [] :=
    List.filter_eq_nil_iff.mpr fun x hx => by
      have := (List.mem_filter.mp hx).2
      simp only [decide_eq_true_eq] at this ⊢
      exact this
  have hMD : (mergeDemandList (st.records.filter
        fun r => decide (r.type = RecordKind.demand))).filter
        (fun x => decide (x.type = RecordKind.demand)) =
      mergeDemandList (st.records.filter
        fun r => decide (r.type = RecordKind.demand)) :=
    List.filter_eq_self.mpr fun x hx => by simp [hd x hx]
  show ((st.records.filter fun r => decide (r.type ≠ RecordKind.demand)) ++
      mergeDemandList
        (st.records.filter fun r => decide (r.type = RecordKind.demand))).filter
      (fun x => decide (x.type = RecordKind.demand)) = _
  rw [List.filter_append, hFD, hMD, List.nil_append]

theorem mergeDemandRecords_idem (st : BankState) :
    mergeDemandRecords (mergeDemandRecords st) = mergeDemandRecords st := by
  have h1 := mergeDemandRecords_nondemand st
  have h2 := mergeDemandRecords_demand st
  show ({ mergeDemandRecords st with records :=
      (((mergeDemandRecords st).records.filter
          fun r => decide (r.type ≠ RecordKind.demand)) ++
        mergeDemandList ((mergeDemandRecords st).records.filter
          fun r => decide (r.type = RecordKind.demand))) } : BankState) = _
  rw [h1, h2, mergeDemandList_idem]
  rfl

/-- C6: the compactor groups demand records by
(uid, currency, settlement date truncated to midnight, rate, cycle); every
group with two or more records is replaced by exactly one record whose
amount is the group's summed amount, carrying the shared key attributes
with the extension flag cleared; groups of size one are left untouched;
non-demand rows are untouched; and running the compactor twice produces
the same record set as running it once. -/
theorem c6_compactor (l : List BankRecord) (k : GroupKey) (r : BankRecord)
    (st : BankState) (h2 : 2 ≤ keyCount l k)
    (hr : r ∈ l) (h1 : keyCount l (groupKey r) = 1) :
    ((mergeDemandList l).filter (fun x => decide (groupKey x = k)) =
        [mergedRecord k (groupSum l k)] ∧
      (mergedRecord k (groupSum l k)).amount = groupSum l k ∧
      (mergedRecord k (groupSum l k)).extendRequested = false) ∧
    r ∈ mergeDemandList l ∧
    mergeDemandRecords (mergeDemandRecords st) = mergeDemandRecords st ∧
    (mergeDemandRecords st).records.filter
        (fun x => decide (x.type ≠ RecordKind.demand)) =
      st.records.filter (fun x => decide (x.type ≠ RecordKind.demand)) :=
  ⟨⟨mergeDemandList_group l k h2, rfl, rfl⟩,
    mergeDemandList_single hr h1,
    mergeDemandRecords_idem st,
    mergeDemandRecords_nondemand st⟩

/-- Fixture for the C6 witness: a demand row at epoch midnight. -/
def c6RecA : BankRecord :=
  { uid := 1, currency := "coin", amount := 30, type := .demand, rate := 5,
    cycle := .day, settlementDate := 0 }

/-- Fixture for the C6 witness: same group as `c6RecA` (same day after
midnight truncation), different raw timestamp and amount. -/
def c6RecB : BankRecord := { c6RecA with amount := 50, settlementDate := 1 }

/-- Fixture for the C6 witness: a singleton group on the next day. -/
def c6RecC : BankRecord := { c6RecA with amount := 7, settlementDate := dayMs }

/-- Fixture state for the C6 witness. -/
def c6State : BankState := { records := [c6RecA, c6RecB, c6RecC], cash := [] }

/-- C6 witness: the compactor statement applied to a three-row table with
one mergeable group and one singleton. -/
theorem c6_compactor_witness :
    ((mergeDemandList [c6RecA, c6RecB, c6RecC]).filter
        (fun x => decide (groupKey x = groupKey c6RecA)) =
      [mergedRecord (groupKey c6RecA)
        (groupSum [c6RecA, c6RecB, c6RecC] (groupKey c6RecA))] ∧
      (mergedRecord (groupKey c6RecA)
        (groupSum [c6RecA, c6RecB, c6RecC] (groupKey c6RecA))).amount =
        groupSum [c6RecA, c6RecB, c6RecC] (groupKey c6RecA) ∧
      (mergedRecord (groupKey c6RecA)
        (groupSum [c6RecA, c6RecB, c6RecC] (groupKey c6RecA))).extendRequested
        = false) ∧
    c6RecC ∈ mergeDemandList [c6RecA, c6RecB, c6RecC] ∧
    mergeDemandRecords (mergeDemandRecords c6State) =
      mergeDemandRecords c6State ∧
    (mergeDemandRecords c6State).records.filter
        (fun x => decide (x.type ≠ RecordKind.demand)) =
      c6State.records.filter (fun x => decide (x.type ≠ RecordKind.demand)) :=
  c6_compactor [c6RecA, c6RecB, c6RecC] (groupKey c6RecA) c6RecC c6State
    (by decide) (by decide) (by decide)

/-! ### C5: the balance invariant over reachable states -/

/-- Well-formedness of one record: non-negative amount and rates. -/
def recWF (r : BankRecord) : Prop :=
  0 ≤ r.amount ∧ 0 ≤ r.rate ∧ ∀ q, r.nextRate = some q → 0 ≤ q

/-- Well-formedness of a record list. -/
def recsWF (l : List BankRecord) : Prop := ∀ r ∈ l, recWF r

/-- Well-formedness of a configuration: non-negative interest rates. -/
def cfgWF (cfg : BankConfig) : Prop :=
  0 ≤ cfg.demandInterest.rate ∧ ∀ p ∈ cfg.fixedInterest, 0 ≤ p.rate

theorem consumeDemand_recsWF {a : ℚ} {l : List BankRecord} (h : recsWF l) :
    ∀ x ∈ consumeDemand a l, recWF x := by
  intro x hx
  obtain ⟨y, hy, hxy⟩ := consumeDemand_shape x hx
  have hrate0 := congrArg BankRecord.rate hxy
  have hnext0 := congrArg BankRecord.nextRate hxy
  have hrate : x.rate = y.rate := hrate0
  have hnext : x.nextRate = y.nextRate := hnext0
  obtain ⟨hya, hyr, hyn⟩ := h y hy
  refine ⟨consumeDemand_nonneg (fun r hr => (h r hr).1) x hx, ?_, ?_⟩
  · rw [hrate]; exact hyr
  · intro q hq
    exact hyn q (by rw [← hnext]; exact hq)

theorem sortBySettlement_recsWF {l : List BankRecord} (h : recsWF l) :
    recsWF (sortBySettlement l) :=
  fun r hr => h r (mem_sortBySettlement.mp hr)

theorem interest_nonneg {r : BankRecord} (ha : 0 ≤ r.amount)
    (hr : 0 ≤ r.rate) : (0 : ℚ) ≤ ((⌊r.amount * r.rate / 100⌋ : ℤ) : ℚ) := by
  have h : (0 : ℤ) ≤ ⌊r.amount * r.rate / 100⌋ :=
    Int.floor_nonneg.mpr (by positivity)
  exact_mod_cast h

theorem settleInterest_demand_eq (cfg : BankConfig) (now : ℤ) (r : BankRecord)
    (ht : r.type = RecordKind.demand) :
    settleInterest cfg now r =
      [{ r with
          amount := r.amount + ((⌊r.amount * r.rate / 100⌋ : ℤ) : ℚ),
          settlementDate := calculateNextSettlementDate r.cycle false now }] := by
  simp [settleInterest, ht]

theorem settleInterest_ext_eq (cfg : BankConfig) (now : ℤ) (r : BankRecord)
    (nr : ℚ) (nc : Cycle) (ht : r.type = RecordKind.fixed)
    (he : r.extendRequested = true) (h1 : r.nextRate = some nr)
    (h2 : r.nextCycle = some nc) :
    settleInterest cfg now r =
      [{ r with
          amount := r.amount + ((⌊r.amount * r.rate / 100⌋ : ℤ) : ℚ),
          rate := nr, cycle := nc,
          settlementDate := calculateNextSettlementDate nc false now,
          extendRequested := false, nextRate := none, nextCycle := none }] := by
  simp [settleInterest, ht, he, h1, h2]

theorem settleInterest_conv_eq (cfg : BankConfig) (now : ℤ) (r : BankRecord)
    (ht : r.type = RecordKind.fixed)
    (hno : r.extendRequested = false ∨ r.nextRate = none ∨ r.nextCycle = none) :
    settleInterest cfg now r =
      (if cfg.demandInterest.enabled then
        [{ uid := r.uid, currency := r.currency,
           amount := r.amount + ((⌊r.amount * r.rate / 100⌋ : ℤ) : ℚ),
           type := RecordKind.demand, rate := cfg.demandInterest.rate,
           cycle := cfg.demandInterest.cycle,
           settlementDate :=
             calculateNextSettlementDate cfg.demandInterest.cycle false now,
           extendRequested := false }]
      else []) := by
  rcases hext : r.extendRequested with _ | _
  · simp [settleInterest, ht, hext]
  · rcases hnr : r.nextRate with _ | nr
    · simp [settleInterest, ht, hext, hnr]
    · rcases hnc : r.nextCycle with _ | nc
      · simp [settleInterest, ht, hext, hnr, hnc]
      · rcases hno with h | h | h
        · rw [h] at hext; cases hext
        · rw [h] at hnr; cases hnr
        · rw [h] at hnc; cases hnc

theorem settleInterest_WF {cfg : BankConfig} (hcfg : cfgWF cfg) (now : ℤ)
    {r : BankRecord} (h : recWF r) :
    ∀ x ∈ settleInterest cfg now r, recWF x := by
  obtain ⟨ha, hr, hn⟩ := h
  have hint := interest_nonneg ha hr
  intro x hx
  rcases htype : r.type with _ | _
  · rw [settleInterest_demand_eq cfg now r htype, List.mem_singleton] at hx
    subst hx
    exact ⟨by simp only; linarith, hr, hn⟩
  · by_cases hful : r.extendRequested = true ∧
        (∃ nr, r.nextRate = some nr) ∧ ∃ nc, r.nextCycle = some nc
    · obtain ⟨he, ⟨nr, hnr⟩, nc, hnc⟩ := hful
      rw [settleInterest_ext_eq cfg now r nr nc htype he hnr hnc,
        List.mem_singleton] at hx
      subst hx
      refine ⟨by simp only; linarith, hn nr hnr, ?_⟩
      intro q hq
      cases hq
    · have hno : r.extendRequested = false ∨ r.nextRate = none ∨
          r.nextCycle = none := by
        rcases hb : r.extendRequested with _ | _
        · exact Or.inl rfl
        rcases ho : r.nextRate with _ | nr
        · exact Or.inr (Or.inl rfl)
        rcases hc : r.nextCycle with _ | nc
        · exact Or.inr (Or.inr rfl)
        exact absurd ⟨hb, ⟨nr, ho⟩, nc, hc⟩ hful
      rw [settleInterest_conv_eq cfg now r htype hno] at hx
      split at hx
      · rw [List.mem_singleton] at hx
        subst hx
        refine ⟨by simp only; linarith, hcfg.1, ?_⟩
        intro q hq
        cases hq
      · cases hx

theorem mergeDemandList_WF {l : List BankRecord} (h : recsWF l) :
    recsWF (mergeDemandList l) := by
  rw [mergeDemandList_eq]
  intro x hx
  rcases List.mem_append.mp hx with hx | hx
  · exact h x (List.mem_of_mem_filter hx)
  · unfold mergedPart at hx
    rw [List.mem_map] at hx
    obtain ⟨k, hk, rfl⟩ := hx
    have hkd := (mem_bigKeys.mp hk).1
    rw [List.mem_dedup] at hkd
    obtain ⟨r0, hr0, hr0k⟩ := List.mem_map.mp hkd
    refine ⟨?_, ?_, ?_⟩
    · show (0 : ℚ) ≤ groupSum l k
      unfold groupSum
      exact amountSum_nonneg fun r hr => (h r (List.mem_of_mem_filter hr)).1
    · show (0 : ℚ) ≤ k.2.2.2.1
      rw [← hr0k]
      exact (h r0 hr0).2.1
    · intro q hq
      cases hq

theorem depositAux_records (ok : Bool) (cfg : BankConfig) (now : ℤ)
    (st : BankState) (uid : Nat) (cur : String) (a : ℚ) :
    (depositAux ok cfg now st uid cur a).2.records = st.records ∨
    (0 < a ∧ (depositAux ok cfg now st uid cur a).2.records =
      st.records ++ [depositRecord cfg now uid cur a]) := by
  unfold depositAux
  by_cases h0 : a ≤ 0
  · rw [if_pos h0]
    exact Or.inl rfl
  rw [if_neg h0]
  push_neg at h0
  rcases hgm : getMonetaryBalance st uid cur with _ | c <;> dsimp only
  · rw [if_pos h0]
    exact Or.inl rfl
  · by_cases hlt : c < a
    · rw [if_pos hlt]
      exact Or.inl rfl
    · rw [if_neg hlt]
      rcases hcm : changeMonetary st uid cur (-a) with _ | p
      · exact Or.inl rfl
      · obtain ⟨v, st2⟩ := p
        have hr2 := (changeMonetary_some hcm).1
        dsimp only
        split
        · exact Or.inr ⟨h0, congrArg (· ++ [depositRecord cfg now uid cur a]) hr2⟩
        · exact Or.inl hr2

theorem depositAux_WF {cfg : BankConfig} (hcfg : cfgWF cfg) (ok : Bool)
    (now : ℤ) (st : BankState) (uid : Nat) (cur : String) (a : ℚ)
    (h : recsWF st.records) :
    recsWF (depositAux ok cfg now st uid cur a).2.records := by
  rcases depositAux_records ok cfg now st uid cur a with he | ⟨hpos, he⟩
  · rw [he]; exact h
  · rw [he]
    intro x hx
    rcases List.mem_append.mp hx with hx | hx
    · exact h x hx
    · rw [List.mem_singleton] at hx
      subst hx
      refine ⟨le_of_lt hpos, ?_, ?_⟩
      · show (0 : ℚ) ≤ jsOr cfg.demandInterest.rate (1 / 4)
        unfold jsOr
        split
        · norm_num
        · exact hcfg.1
      · intro q hq
        cases hq

theorem withdrawAux_WF (ok : Bool) (st : BankState) (uid : Nat) (cur : String)
    (a : ℚ) (h : recsWF st.records) :
    recsWF (withdrawAux ok st uid cur a).2.records := by
  have h1 : recsWF (otherRecordsOf st uid cur ++
      consumeDemand a (sortBySettlement (demandRecordsOf st uid cur))) := by
    intro x hx
    rcases List.mem_append.mp hx with hx | hx
    · exact h x (List.mem_of_mem_filter hx)
    · exact consumeDemand_recsWF
        (sortBySettlement_recsWF fun r hr => h r (List.mem_of_mem_filter hr))
        x hx
  unfold withdrawAux
  split
  · exact h
  dsimp only
  split
  · exact h
  split
  · split
    · exact h1
    · rename_i v st2 heq
      have hr := (changeMonetary_some heq).1
      intro x hx
      rw [hr] at hx
      exact h1 x hx
  · exact h1

theorem openFixedTerm_WF (now : ℤ) (st : BankState) (uid : Nat) (cur : String)
    (a : ℚ) {plan : FixedPlan} (hplan : 0 ≤ plan.rate)
    (h : recsWF st.records) :
    recsWF (openFixedTerm now st uid cur a plan).2.records := by
  unfold openFixedTerm
  by_cases h0 : a ≤ 0
  · rw [if_pos h0]; exact h
  rw [if_neg h0]
  push_neg at h0
  simp only
  split
  · exact h
  split
  · exact h
  rename_i fromCash st1 heq
  have hst1 : st1.records = st.records := by
    by_cases hc : 0 < cashOf st uid cur
    · rw [if_pos hc] at heq
      rcases hcm : changeMonetary st uid cur (-(min (cashOf st uid cur) a))
        with _ | p2
      · rw [hcm] at heq; cases heq
      · obtain ⟨v, st2⟩ := p2
        rw [hcm] at heq
        simp only [Option.map_some', Option.some.injEq, Prod.mk.injEq] at heq
        rw [← heq.2]
        exact (changeMonetary_some hcm).1
    · rw [if_neg hc] at heq
      simp only [Option.some.injEq, Prod.mk.injEq] at heq
      rw [← heq.2]
  have hwf1 : recsWF st1.records := by rw [hst1]; exact h
  have hfix : recWF (fixedRecord plan now uid cur a) := by
    refine ⟨le_of_lt h0, hplan, ?_⟩
    intro q hq
    cases hq
  intro x hx
  simp only at hx
  rcases List.mem_append.mp hx with hx | hx
  · split at hx
    · rcases List.mem_append.mp hx with hx | hx
      · exact hwf1 x (List.mem_of_mem_filter hx)
      · exact consumeDemand_recsWF
          (sortBySettlement_recsWF fun r hr =>
            hwf1 r (List.mem_of_mem_filter hr)) x hx
    · exact hwf1 x hx
  · rw [List.mem_singleton] at hx
    subst hx
    exact hfix

theorem settleSweep_WF {cfg : BankConfig} (hcfg : cfgWF cfg) (now : ℤ)
    (st : BankState) (h : recsWF st.records) :
    recsWF (settleSweep cfg now st).records := by
  intro x hx
  unfold settleSweep at hx
  simp only [List.mem_flatMap] at hx
  obtain ⟨r, hr, hxr⟩ := hx
  by_cases hdue : midnight r.settlementDate ≤ midnight now
  · rw [if_pos hdue] at hxr
    exact settleInterest_WF hcfg now (h r hr) x hxr
  · rw [if_neg hdue] at hxr
    rw [List.mem_singleton] at hxr
    subst hxr
    exact h _ hr

theorem mergeDemandRecords_WF (st : BankState) (h : recsWF st.records) :
    recsWF (mergeDemandRecords st).records := by
  intro x hx
  unfold mergeDemandRecords at hx
  simp only at hx
  rcases List.mem_append.mp hx with hx | hx
  · exact h x (List.mem_of_mem_filter hx)
  · exact mergeDemandList_WF (fun r hr => h r (List.mem_of_mem_filter hr)) x hx

/-- Every record of a reachable state is well-formed. -/
theorem reach_WF {cfg : BankConfig} {st : BankState} (hcfg : cfgWF cfg)
    (h : Reach cfg st) : recsWF st.records := by
  induction h with
  | init cash => intro r hr; cases hr
  | depositStep ok now uid cur a h ih =>
    exact depositAux_WF hcfg ok now _ uid cur a ih
  | withdrawStep ok uid cur a h ih =>
    exact withdrawAux_WF ok _ uid cur a ih
  | openFixedStep now uid cur a hp h ih =>
    exact openFixedTerm_WF now _ uid cur a (hcfg.2 _ hp) ih
  | settleStep now h ih =>
    exact mergeDemandRecords_WF _ (settleSweep_WF hcfg now _ ih)
  | mergeStep h ih =>
    exact mergeDemandRecords_WF _ ih

/-- C5: in every reachable ledger state, `getBalance` returns
`total = demand + fixed` with both parts non-negative, and returns
`{0, 0, 0}` (not an error) when the user has no records. -/
theorem c5_balance_invariant (cfg : BankConfig) (st : BankState)
    (uid : Nat) (cur : String) (hcfg : cfgWF cfg) (hre : Reach cfg st) :
    (getBankBalance st uid cur).total =
      (getBankBalance st uid cur).demand + (getBankBalance st uid cur).fixed ∧
    0 ≤ (getBankBalance st uid cur).demand ∧
    0 ≤ (getBankBalance st uid cur).fixed ∧
    ((st.records.filter fun r => decide (r.uid = uid ∧ r.currency = cur)) = []
      → getBankBalance st uid cur = ⟨0, 0, 0⟩) := by
  have hwf := reach_WF hcfg hre
  refine ⟨getBankBalance_total st uid cur, ?_, ?_, ?_⟩
  · rw [getBankBalance_split]
    exact amountSum_nonneg fun r hr =>
      (hwf r (List.mem_of_mem_filter hr)).1
  · rw [getBankBalance_split]
    exact amountSum_nonneg fun r hr =>
      (hwf r (List.mem_of_mem_filter hr)).1
  · intro hempty
    unfold getBankBalance
    rw [hempty]
    simp [amountSum]

/-- C5 witness: the invariant applied to the reachable state produced by a
deposit of 10 on the empty ledger. -/
theorem c5_balance_invariant_witness :
    (getBankBalance (deposit sampleCfg 0 ⟨[], [((1, "coin"), 10)]⟩
        1 "coin" 10).2 1 "coin").total =
      (getBankBalance (deposit sampleCfg 0 ⟨[], [((1, "coin"), 10)]⟩
        1 "coin" 10).2 1 "coin").demand +
      (getBankBalance (deposit sampleCfg 0 ⟨[], [((1, "coin"), 10)]⟩
        1 "coin" 10).2 1 "coin").fixed ∧
    0 ≤ (getBankBalance (deposit sampleCfg 0 ⟨[], [((1, "coin"), 10)]⟩
        1 "coin" 10).2 1 "coin").demand ∧
    0 ≤ (getBankBalance (deposit sampleCfg 0 ⟨[], [((1, "coin"), 10)]⟩
        1 "coin" 10).2 1 "coin").fixed ∧
    (((deposit sampleCfg 0 ⟨[], [((1, "coin"), 10)]⟩ 1 "coin" 10).2.records.filter
        fun r => decide (r.uid = 1 ∧ r.currency = "coin")) = [] →
      getBankBalance (deposit sampleCfg 0 ⟨[], [((1, "coin"), 10)]⟩
        1 "coin" 10).2 1 "coin" = ⟨0, 0, 0⟩) :=
  c5_balance_invariant sampleCfg _ 1 "coin" ⟨by decide, by decide⟩
    (Reach.depositStep true 0 1 "coin" 10 (Reach.init [((1, "coin"), 10)]))

end MonetaryBank
